import Mathlib

/-!
Verification of SkillShield (`scripts/skillshield.py`), a static rule-based
security scanner for "skill" packages.  The Python scanner is shallowly
embedded: file contents are strings, the filesystem is an inductive tree,
stateful accumulation on the `SkillScanner` object is explicit state passing,
and each regular expression of the source is hand-compiled to an executable
matcher over character lists.  Unicode-aware pieces of Python (`str.lower`,
`\s`, `\w`) are modelled on their ASCII behaviour, which is exact for every
pattern in the rule tables.
-/

deriving instance DecidableEq for Except

namespace SkillShield

/-! ## String utilities (ASCII models of the Python primitives used) -/

/-- Python `\s` on ASCII: space, tab, newline, carriage return, form feed,
vertical tab. -/
def isPySpace (c : Char) : Bool :=
  c = ' ' || c = '\t' || c = '\n' || c = '\r' || c = '\x0c' || c = '\x0b'

/-- Python `\w` on ASCII: letters, digits, underscore. -/
def isWordChar (c : Char) : Bool :=
  c.isAlpha || c.isDigit || c = '_'

/-- Hex digit, as in the character class `[0-9a-fA-F]`. -/
def isHexDig (c : Char) : Bool :=
  c.isDigit || ('a' ≤ c && c ≤ 'f') || ('A' ≤ c && c ≤ 'F')

/-- A quote character, as in the character class `['"]`. -/
def isQuote (c : Char) : Bool :=
  c = '\'' || c = '"'

/-- `litPre pat s` holds when `pat` is a leading segment of `s`. -/
def litPre : List Char → List Char → Bool
  | [], _ => true
  | _ :: _, [] => false
  | p :: ps, c :: cs => p = c && litPre ps cs

/-- `containsLit pat s`: the literal `pat` occurs somewhere in `s`
(model of `re.search` on a literal pattern). -/
def containsLit (pat : List Char) : List Char → Bool
  | [] => litPre pat []
  | s@(_ :: t) => litPre pat s || containsLit pat t

/-- Search for literal `pat` followed by a context accepted by `k`
(used for patterns such as `exec\s*\(` and `curl\s`). -/
def containsLitThen (pat : List Char) (k : List Char → Bool) : List Char → Bool
  | [] => litPre pat [] && k []
  | s@(_ :: t) => (litPre pat s && k (s.drop pat.length)) || containsLitThen pat k t

/-- Context for `\s*\(` : optional whitespace then an opening parenthesis. -/
def wsParenAfter (rest : List Char) : Bool :=
  match rest.dropWhile isPySpace with
  | '(' :: _ => true
  | _ => false

/-- Context for a single `\s` : the next character is whitespace. -/
def headIsSpace (rest : List Char) : Bool :=
  match rest with
  | c :: _ => isPySpace c
  | [] => false

/-- ASCII model of Python `str.lower`. -/
def lowerL (s : List Char) : List Char := s.map Char.toLower

/-- `s[:n]` on strings. -/
def strTake (s : String) (n : Nat) : String := ⟨s.data.take n⟩

/-- Python `str.startswith` for a literal. -/
def strStartsWith (s p : String) : Bool := litPre p.data s.data

/-- Python `str.endswith` for a literal. -/
def strEndsWith (s suf : String) : Bool := litPre suf.data.reverse s.data.reverse

/-- Substring test on strings (Python `in`). -/
def containsStr (hay pat : String) : Bool := containsLit pat.data hay.data

/-- Count non-overlapping occurrences of a literal (model of
`len(re.findall(lit, s))`); fuel-driven, fuel = length of the text. -/
def countLitAux : Nat → List Char → List Char → Nat
  | 0, _, _ => 0
  | _ + 1, _, [] => 0
  | fuel + 1, pat, s@(_ :: t) =>
    if litPre pat s then 1 + countLitAux fuel pat (s.drop pat.length)
    else countLitAux fuel pat t

def countLit (pat s : List Char) : Nat := countLitAux s.length pat s

/-- Count non-overlapping matches of `\\x[0-9a-fA-F]{2}`. -/
def countHexAux : Nat → List Char → Nat
  | 0, _ => 0
  | _ + 1, [] => 0
  | fuel + 1, s@(_ :: t) =>
    match s with
    | '\\' :: 'x' :: a :: b :: rest =>
      if isHexDig a && isHexDig b then 1 + countHexAux fuel rest
      else countHexAux fuel t
    | _ => countHexAux fuel t

def countHex (s : List Char) : Nat := countHexAux s.length s

/-! ## Hand-compiled regular expressions of the rule tables -/

/-- The shapes of pattern actually occurring in the scanner's rule tables:
a literal, an alternation of literals, a literal followed by `\s*\(`, and a
literal followed by one `\s`. -/
inductive Pat where
  | lit (s : String)
  | alts (ss : List String)
  | litWsParen (s : String)
  | litWs (s : String)
deriving DecidableEq, Repr

/-- `re.search` for the supported pattern shapes. -/
def Pat.search (p : Pat) (content : List Char) : Bool :=
  match p with
  | .lit s => containsLit s.data content
  | .alts ss => ss.any (fun s => containsLit s.data content)
  | .litWsParen s => containsLitThen s.data wsParenAfter content
  | .litWs s => containsLitThen s.data headIsSpace content

/-! ## URL extraction: `re.findall(r'https?://[^\s\'"\)\>]+', content)` -/

/-- Characters that terminate a URL match: the class `[^\s\'"\)\>]`
complemented. -/
def urlDelim (c : Char) : Bool :=
  isPySpace c || c = '\'' || c = '"' || c = ')' || c = '>'

/-- Try to match `https?://[^\s\'"\)\>]+` at the head of `s`; on success
return the match and the remaining text. -/
def tryUrlAt (s : List Char) : Option (List Char × List Char) :=
  if litPre "https://".data s then
    let body := (s.drop 8).takeWhile (fun c => !urlDelim c)
    if body.isEmpty then none
    else some ("https://".data ++ body, s.drop (8 + body.length))
  else if litPre "http://".data s then
    let body := (s.drop 7).takeWhile (fun c => !urlDelim c)
    if body.isEmpty then none
    else some ("http://".data ++ body, s.drop (7 + body.length))
  else none

/-- Left-to-right, non-overlapping URL extraction (fuel = text length). -/
def extractUrlsAux : Nat → List Char → List (List Char)
  | 0, _ => []
  | _ + 1, [] => []
  | fuel + 1, s@(_ :: t) =>
    match tryUrlAt s with
    | some (url, rest) => url :: extractUrlsAux fuel rest
    | none => extractUrlsAux fuel t

def extractUrls (s : List Char) : List (List Char) := extractUrlsAux s.length s

/-- `re.search(r'https?://([^/]+)', url)`: the captured host component. -/
def domainOfAux : Nat → List Char → Option (List Char)
  | 0, _ => none
  | _ + 1, [] => none
  | fuel + 1, s@(_ :: t) =>
    if litPre "https://".data s then
      let d := (s.drop 8).takeWhile (fun c => c ≠ '/')
      if d.isEmpty then domainOfAux fuel t else some d
    else if litPre "http://".data s then
      let d := (s.drop 7).takeWhile (fun c => c ≠ '/')
      if d.isEmpty then domainOfAux fuel t else some d
    else domainOfAux fuel t

def domainOf (url : List Char) : Option (List Char) := domainOfAux url.length url

/-! ## Import extraction -/

/-- Try `^<kw>\s+(\w+)` at the head of `s` (which must be a line start);
return the captured word and the remaining text. -/
def tryImportAt (kw : List Char) (s : List Char) : Option (String × List Char) :=
  if litPre kw s then
    let r := s.drop kw.length
    let ws := r.takeWhile isPySpace
    if ws.isEmpty then none
    else
      let w := (r.drop ws.length).takeWhile isWordChar
      if w.isEmpty then none
      else some (⟨w⟩, r.drop (ws.length + w.length))
  else none

/-- `re.findall(r'^<kw>\s+(\w+)', content, re.MULTILINE)`: the flag tracks
whether the current position is a line start. -/
def findImportsAux (kw : List Char) : Nat → Bool → List Char → List String
  | 0, _, _ => []
  | _ + 1, _, [] => []
  | fuel + 1, atStart, s@(c :: t) =>
    if atStart then
      match tryImportAt kw s with
      | some (w, rest) => w :: findImportsAux kw fuel false rest
      | none => findImportsAux kw fuel (c = '\n') t
    else findImportsAux kw fuel (c = '\n') t

def findImports (kw : String) (s : List Char) : List String :=
  findImportsAux kw.data s.length true s

/-- Try `require\(['"]([^'"]+)['"]` at the head of `s`. -/
def tryRequireAt (s : List Char) : Option (String × List Char) :=
  if litPre "require(".data s then
    match s.drop 8 with
    | q :: r2 =>
      if isQuote q then
        let body := r2.takeWhile (fun c => !isQuote c)
        if body.isEmpty then none
        else
          match r2.drop body.length with
          | q2 :: rest => if isQuote q2 then some (⟨body⟩, rest) else none
          | [] => none
      else none
    | [] => none
  else none

def findRequiresAux : Nat → List Char → List String
  | 0, _ => []
  | _ + 1, [] => []
  | fuel + 1, s@(_ :: t) =>
    match tryRequireAt s with
    | some (w, rest) => w :: findRequiresAux fuel rest
    | none => findRequiresAux fuel t

/-- `re.findall(r'require\([\'"]([^\'"]+)[\'"]', content)`. -/
def findRequires (s : List Char) : List String := findRequiresAux s.length s

/-! ## Data model -/

/-- A warning record, as built by `SkillScanner._add_warning`: four string
fields; two warnings are equal iff all four fields are equal.  Severities are
the source's strings (`"critical"`, `"high"`, `"medium"`, `"low"`, `"info"`). -/
structure Warning where
  type : String
  severity : String
  description : String
  file : String
deriving DecidableEq, Repr

/-- The scanner's permission sets.  Python `set`s are modelled as
insertion-ordered duplicate-free lists (`setAdd` below). -/
structure Permissions where
  filesRead : List String
  filesWrite : List String
  filesDelete : List String
  netUrls : List String
  netDomains : List String
  sysCommands : List String
  sysImports : List String
  dataEnvVars : List String
  dataCredentials : List String
deriving DecidableEq, Repr

/-- Output of `_serialize_permissions`: the same shape, with the fixed
truncation caps applied. -/
structure SerializedPermissions where
  filesRead : List String
  filesWrite : List String
  filesDelete : List String
  netUrls : List String
  netDomains : List String
  sysCommands : List String
  sysImports : List String
  dataEnvVars : List String
  dataCredentials : List String
deriving DecidableEq, Repr

/-- Output of `_calculate_rating`. -/
structure Rating where
  score : Int
  grade : String
  risk_level : String
  critical_count : Nat
  high_count : Nat
deriving DecidableEq, Repr

/-- The mutable per-scan state of the `SkillScanner` object:
`self.warnings`, `self.permissions`, `self.file_hashes` (the dict is an
insertion-ordered association list with unique keys). -/
structure ScanState where
  warnings : List Warning
  perms : Permissions
  fileHashes : List (String × String)
deriving DecidableEq, Repr

def emptyPermissions : Permissions :=
  ⟨[], [], [], [], [], [], [], [], []⟩

/-- The reset performed at the top of `SkillScanner.scan` (and in
`__init__`). -/
def emptyScanState : ScanState :=
  { warnings := [], perms := emptyPermissions, fileHashes := [] }

/-- The dictionary returned by a successful `SkillScanner.scan`. -/
structure ScanResult where
  skill_path : String
  scan_time : String
  trust_rating : String
  score : Int
  risk_level : String
  warnings : List Warning
  permissions : SerializedPermissions
  files_scanned : Nat
  file_hashes : List (String × String)
  summary : String
  recommendations : List String
deriving DecidableEq, Repr

/-!
The filesystem model: the input to `scan`.  File contents carry
`Except.error msg` when opening/reading the file raises an exception with
text `msg` (the `except` branch of `_scan_file`).  Directory listings are a
mutually inductive list type so the traversals below are structurally
recursive (and hence computable by the kernel).
-/
mutual
/-- A filesystem tree: a file with its content, or a directory. -/
inductive Entry where
  | file (name : String) (content : Except String String)
  | dir (name : String) (entries : EntryList)

/-- A directory listing. -/
inductive EntryList where
  | nil
  | cons (e : Entry) (es : EntryList)
end

/-- A selected file: its path (as components) and its content. -/
abbrev PFile := List String × Except String String

/-- `os.path.basename` on a component path. -/
def basename (p : List String) : String := p.getLastD ""

/-! ## Rule tables (verbatim from the class attributes) -/

/-- `SENSITIVE_FILES`: (source regex, compiled pattern, description,
severity).  The raw regex string is what `_check_sensitive_files` records
under `files.read`. -/
def SENSITIVE_FILES : List (String × Pat × String × String) := [
  ("\\.env", .lit ".env", "读取 .env 文件", "high"),
  ("\\.bashrc", .lit ".bashrc", "读取 .bashrc", "medium"),
  ("\\.zshrc", .lit ".zshrc", "读取 .zshrc", "medium"),
  ("\\.ssh[/\\\\]", .alts [".ssh/", ".ssh\\"], "访问 SSH 目录", "critical"),
  ("\\.aws[/\\\\]", .alts [".aws/", ".aws\\"], "访问 AWS 凭证", "critical"),
  ("\\.config[/\\\\]", .alts [".config/", ".config\\"], "读取配置文件", "low"),
  ("password", .lit "password", "访问密码相关文件", "high"),
  ("credential", .lit "credential", "访问凭证文件", "critical"),
  ("token", .lit "token", "访问 token 文件", "critical"),
  ("api_key", .lit "api_key", "访问 API key", "critical"),
  ("secret", .lit "secret", "访问密钥文件", "critical"),
  ("cookie", .lit "cookie", "访问 cookie 文件", "high"),
  ("\\.gitconfig", .lit ".gitconfig", "读取 git 配置", "medium"),
  ("\\.docker", .lit ".docker", "访问 Docker 配置", "medium")]

/-- `DANGEROUS_COMMANDS` (matched case-sensitively). -/
def DANGEROUS_COMMANDS : List (Pat × String × String) := [
  (.litWsParen "os.system", "执行系统命令 (os.system)", "critical"),
  (.alts ["subprocess.call", "subprocess.run", "subprocess.Popen"],
    "执行子进程 (subprocess)", "high"),
  (.lit "subprocess.check_output", "执行子进程并获取输出", "high"),
  (.litWsParen "exec", "动态执行代码 (exec)", "critical"),
  (.litWsParen "eval", "动态执行代码 (eval)", "critical"),
  (.litWsParen "__import__", "动态导入模块", "medium"),
  (.litWsParen "compile", "编译代码", "medium"),
  (.lit "importlib", "动态导入模块", "medium")]

/-- `SUSPICIOUS_PATTERNS` (matched against the lowercased content). -/
def SUSPICIOUS_PATTERNS : List (Pat × String × String) := [
  (.alts ["base64.b64encode", "base64.b64decode"], "Base64 编码/解码", "medium"),
  (.alts ["encrypt", "decrypt"], "加密/解密操作", "low"),
  (.alts ["keylogger", "keyboard", "input"], "键盘记录相关", "critical"),
  (.lit "screenshot", "屏幕截图", "high"),
  (.lit "webhook", "Webhook 调用", "low"),
  (.lit "socket.", "网络 socket 操作", "medium"),
  (.alts ["ftplib", "smtplib"], "FTP/SMTP 协议", "medium"),
  (.alts ["tempfile.mkdtemp", "tempfile.mkstemp"], "创建临时文件", "low")]

/-- `SUSPICIOUS_DOMAINS`. -/
def SUSPICIOUS_DOMAINS : List String :=
  ["webhook", "pastebin", "requestbin", "hook",
   "ngrok", "burpcollaborator", "interactsh"]

/-- The request-library patterns of `_check_network_requests`: the raw regex
string is stored under `system.commands` on a match. -/
def REQUEST_PATTERNS : List (String × Pat) := [
  ("requests\\.(get|post|put|delete|patch)",
    .alts ["requests.get", "requests.post", "requests.put",
           "requests.delete", "requests.patch"]),
  ("urllib\\.(request|urlopen)", .alts ["urllib.request", "urllib.urlopen"]),
  ("http\\.client", .lit "http.client"),
  ("fetch\\(", .lit "fetch("),
  ("axios\\.(get|post)", .alts ["axios.get", "axios.post"]),
  ("curl\\s", .litWs "curl"),
  ("wget\\s", .litWs "wget")]

/-! ## State operations -/

/-- `set.add` on the insertion-ordered list model of a Python set. -/
def setAdd (l : List String) (x : String) : List String :=
  if x ∈ l then l else l ++ [x]

/-- `dict[k] = v` on an association list with unique keys: replace in place
when the key is present, append otherwise. -/
def assocSet : List (String × String) → String → String → List (String × String)
  | [], k, v => [(k, v)]
  | (k', v') :: r, k, v =>
    if k' = k then (k', v) :: r else (k', v') :: assocSet r k v

/-- `dict.get`/`dict[k]` lookup (keys are unique, so first match wins). -/
def lookupA : List (String × String) → String → Option String
  | [], _ => none
  | (k', v) :: r, k => if k' = k then some v else lookupA r k

/-- `SkillScanner._add_warning`: append the warning unless an equal one (all
four fields) is already present. -/
def addWarning (st : ScanState) (t sev desc fname : String) : ScanState :=
  let w : Warning := ⟨t, sev, desc, fname⟩
  if w ∈ st.warnings then st else { st with warnings := st.warnings ++ [w] }

/-! ## Per-file checks -/

/-- Loop body of `_check_sensitive_files`: on a match, add the warning and
record the raw pattern under `files.read`. -/
def sensitiveStep (content fname : String) (st : ScanState)
    (row : String × Pat × String × String) : ScanState :=
  match row with
  | (pat, p, desc, sev) =>
    if p.search (lowerL content.data) then
      let st := addWarning st "sensitive_file" sev desc fname
      { st with perms := { st.perms with filesRead := setAdd st.perms.filesRead pat } }
    else st

/-- `_check_sensitive_files` (patterns matched with `re.IGNORECASE`). -/
def checkSensitiveFiles (content fname : String) (st : ScanState) : ScanState :=
  SENSITIVE_FILES.foldl (sensitiveStep content fname) st

/-- Inner loop of `_check_network_requests`: one suspicious-domain keyword
against the (lowercased) domain. -/
def domainStep (fname dStr : String) (st : ScanState) (susp : String) : ScanState :=
  if containsLit susp.data (lowerL dStr.data) then
    addWarning st "suspicious_network" "high"
      ("数据可能发送到外部服务: " ++ dStr) fname
  else st

/-- `self.permissions['network']['urls'].add(url)`. -/
def permAddUrl (st : ScanState) (u : String) : ScanState :=
  { st with perms := { st.perms with netUrls := setAdd st.perms.netUrls u } }

/-- `self.permissions['network']['domains'].add(domain)`. -/
def permAddDomain (st : ScanState) (d : String) : ScanState :=
  { st with perms := { st.perms with netDomains := setAdd st.perms.netDomains d } }

/-- Outer URL loop of `_check_network_requests`: record the URL, extract and
record its domain, and run the suspicious-domain keywords. -/
def urlStep (fname : String) (st : ScanState) (url : List Char) : ScanState :=
  let st := permAddUrl st ⟨url⟩
  match domainOf url with
  | none => st
  | some d =>
    let dStr : String := ⟨d⟩
    let st := permAddDomain st dStr
    SUSPICIOUS_DOMAINS.foldl (domainStep fname dStr) st

/-- Request-library loop of `_check_network_requests`: record the raw
pattern string under `system.commands` (no warning). -/
def reqStep (content : String) (st : ScanState) (row : String × Pat) : ScanState :=
  match row with
  | (pat, p) =>
    if p.search (lowerL content.data) then
      { st with perms := { st.perms with sysCommands := setAdd st.perms.sysCommands pat } }
    else st

/-- `_check_network_requests`. -/
def checkNetworkRequests (content fname : String) (st : ScanState) : ScanState :=
  let st := (extractUrls content.data).foldl (urlStep fname) st
  REQUEST_PATTERNS.foldl (reqStep content) st

/-- Loop body of `_check_system_commands`. -/
def dangerStep (content fname : String) (st : ScanState)
    (row : Pat × String × String) : ScanState :=
  match row with
  | (p, desc, sev) =>
    if p.search content.data then addWarning st "system_command" sev desc fname
    else st

/-- `_check_system_commands` (case-sensitive). -/
def checkSystemCommands (content fname : String) (st : ScanState) : ScanState :=
  DANGEROUS_COMMANDS.foldl (dangerStep content fname) st

/-- Loop body of `_check_suspicious_patterns`. -/
def suspStep (content fname : String) (st : ScanState)
    (row : Pat × String × String) : ScanState :=
  match row with
  | (p, desc, sev) =>
    if p.search (lowerL content.data) then
      addWarning st "suspicious_pattern" sev desc fname
    else st

/-- `_check_suspicious_patterns` (with `re.IGNORECASE`). -/
def checkSuspiciousPatterns (content fname : String) (st : ScanState) : ScanState :=
  SUSPICIOUS_PATTERNS.foldl (suspStep content fname) st

/-- `re.search(r'os\.environ|getenv|os\.getenv', content)`. -/
def hasEnvRead (content : String) : Bool :=
  Pat.search (.alts ["os.environ", "getenv", "os.getenv"]) content.data

/-- `re.search(r'requests\.(post|put|patch)|urllib', content)`. -/
def hasHttpSend (content : String) : Bool :=
  Pat.search (.alts ["requests.post", "requests.put", "requests.patch", "urllib"]) content.data

/-- `re.search(r'json\.dumps', content)`. -/
def hasJsonEncode (content : String) : Bool :=
  containsLit "json.dumps".data content.data

/-- `_check_data_exfiltration`. -/
def checkDataExfiltration (content fname : String) (st : ScanState) : ScanState :=
  if hasEnvRead content && hasHttpSend content then
    addWarning st "data_exfiltration"
      (if hasJsonEncode content then "critical" else "high")
      "可能读取环境变量并发送到外部" fname
  else st

/-- Recording one extracted import identifier under `system.imports`. -/
def importStep (st : ScanState) (m : String) : ScanState :=
  { st with perms := { st.perms with sysImports := setAdd st.perms.sysImports m } }

/-- `_check_imports`: the three findall passes, in source order. -/
def checkImports (content : String) (st : ScanState) : ScanState :=
  (findImports "import" content.data
    ++ findImports "from" content.data
    ++ findRequires content.data).foldl importStep st

/-- `_check_obfuscation` (deep scan only). -/
def checkObfuscation (content fname : String) (st : ScanState) : ScanState :=
  let c1 := countLit "base64".data (lowerL content.data)
  let st :=
    if c1 > 5 then
      addWarning st "obfuscation" "medium"
        ("检测到多次 Base64 编码 (" ++ toString c1 ++ " 次)") fname
    else st
  let c2 := countHex content.data
  if c2 > 20 then
    addWarning st "obfuscation" "medium"
      ("检测到十六进制编码 (" ++ toString c2 ++ " 处)") fname
  else st

/-- `_scan_file`.  On a read failure the source appends the `file_error`
warning directly to `self.warnings` (NOT through `_add_warning`). -/
def scanFile (dg : String → String) (deep : Bool) (st : ScanState) (pf : PFile) :
    ScanState :=
  match pf.2 with
  | .error e =>
    { st with warnings := st.warnings ++
        [⟨"file_error", "low", "无法读取文件: " ++ e, basename pf.1⟩] }
  | .ok content =>
    let fname := basename pf.1
    let st := { st with fileHashes := assocSet st.fileHashes fname (strTake (dg content) 16) }
    let st := checkSensitiveFiles content fname st
    let st := checkNetworkRequests content fname st
    let st := checkSystemCommands content fname st
    let st := checkSuspiciousPatterns content fname st
    let st := checkDataExfiltration content fname st
    let st := checkImports content st
    if deep then checkObfuscation content fname st else st

/-! ## File selection (`_get_files`) and the deep-scan walk -/

/-- A directory is pruned from descent when its name starts with `'.'` or is
one of the known non-source directories. -/
def prunedDir (d : String) : Bool :=
  strStartsWith d "." || d ∈ ["node_modules", "__pycache__", "venv", ".git"]

/-- The scannable extension allow-list (`filename.endswith(...)`). -/
def scannableExt (name : String) : Bool :=
  [".py", ".js", ".ts", ".md", ".sh", ".json", ".yaml", ".yml", ".toml", ".txt"].any
    (fun e => strEndsWith name e)

/-- The scannable files directly inside one directory listing, in listing
order (`os.walk` yields each directory's files before descending). -/
def filesHere (path : List String) : EntryList → List PFile
  | .nil => []
  | .cons (.file n c) r =>
    (if scannableExt n then [(path ++ [n], c)] else []) ++ filesHere path r
  | .cons (.dir _ _) r => filesHere path r

/-- Depth-first descent into the non-pruned subdirectories; for each one,
its own files come before its subdirectories' files. -/
def walkSub (path : List String) : EntryList → List PFile
  | .nil => []
  | .cons (.file _ _) r => walkSub path r
  | .cons (.dir d sub) r =>
    (if prunedDir d then []
     else filesHere (path ++ [d]) sub ++ walkSub (path ++ [d]) sub)
      ++ walkSub path r

/-- `os.walk` with the pruning filter of `_get_files`, collecting scannable
files. -/
def walkDir (path : List String) (entries : EntryList) : List PFile :=
  filesHere path entries ++ walkSub path entries

/-- `SkillScanner._get_files`: a single file is included iff its extension is
scannable; a directory is walked with pruning.  Note the root directory
itself is never pruned (`os.walk` starts inside it). -/
def getFiles : Entry → List PFile
  | .file n c => if scannableExt n then [([n], c)] else []
  | .dir n es => walkDir [n] es

/-- File names directly inside one directory listing that start with `'.'`
(the hidden-file test of `_deep_scan`). -/
def hiddenHere : EntryList → List String
  | .nil => []
  | .cons (.file n _) r => (if strStartsWith n "." then [n] else []) ++ hiddenHere r
  | .cons (.dir _ _) r => hiddenHere r

/-- Descent of `_deep_scan`'s `os.walk`: NO pruning filter is applied. -/
def hiddenSub : EntryList → List String
  | .nil => []
  | .cons (.file _ _) r => hiddenSub r
  | .cons (.dir _ sub) r => (hiddenHere sub ++ hiddenSub sub) ++ hiddenSub r

/-- All hidden file names seen by `_deep_scan`'s walk of the input path
(an `os.walk` over a plain file yields nothing). -/
def hiddenFiles : Entry → List String
  | .file _ _ => []
  | .dir _ es => hiddenHere es ++ hiddenSub es

/-- One `hidden_file` warning of `_deep_scan` (empty `file` field). -/
def hiddenStep (st : ScanState) (n : String) : ScanState :=
  addWarning st "hidden_file" "low" ("发现隐藏文件: " ++ n) ""

/-- `SkillScanner._deep_scan`: one `hidden_file` warning per hidden file,
inserted through `_add_warning`, with an empty `file` field. -/
def deepScanPass (root : Entry) (st : ScanState) : ScanState :=
  (hiddenFiles root).foldl hiddenStep st

/-! ## Rating engine (`_calculate_rating`) -/

/-- `severity_weights.get(severity, 5)`. -/
def severityWeight (s : String) : Int :=
  if s = "critical" then 25
  else if s = "high" then 10
  else if s = "medium" then 5
  else if s = "low" then 2
  else if s = "info" then 0
  else 5

/-- The loop of `_calculate_rating`: running score and critical/high counts. -/
def ratingTally (ws : List Warning) : Int × Nat × Nat :=
  ws.foldl (fun acc w =>
    (acc.1 - severityWeight w.severity,
     (if w.severity = "critical" then acc.2.1 + 1 else acc.2.1),
     (if w.severity = "high" then acc.2.2 + 1 else acc.2.2)))
    (100, 0, 0)

/-- Score-to-grade thresholds of `_calculate_rating`. -/
def gradeOfScore (score : Int) : String :=
  if score ≥ 95 then "A+"
  else if score ≥ 90 then "A"
  else if score ≥ 80 then "B"
  else if score ≥ 70 then "C"
  else if score ≥ 60 then "D"
  else "F"

/-- Score-to-risk-label thresholds of `_calculate_rating`. -/
def riskOfScore (score : Int) : String :=
  if score ≥ 95 then "极低"
  else if score ≥ 90 then "低"
  else if score ≥ 80 then "中低"
  else if score ≥ 70 then "中等"
  else if score ≥ 60 then "高"
  else "极高"

/-- `SkillScanner._calculate_rating`. -/
def calculateRating (ws : List Warning) : Rating :=
  let t := ratingTally ws
  let score := t.1
  let criticalCount := t.2.1
  let highCount := t.2.2
  let score := if criticalCount ≥ 2 then score - 20 else score
  let score := if highCount ≥ 3 then score - 10 else score
  let score := max 0 (min 100 score)
  { score := score
    grade := gradeOfScore score
    risk_level := riskOfScore score
    critical_count := criticalCount
    high_count := highCount }

/-! ## Serialization, summary, recommendations -/

/-- `SkillScanner._serialize_permissions`: `list(s)[:cap]` per category. -/
def serializePermissions (p : Permissions) : SerializedPermissions :=
  { filesRead := p.filesRead.take 10
    filesWrite := p.filesWrite.take 5
    filesDelete := p.filesDelete.take 5
    netUrls := p.netUrls.take 10
    netDomains := p.netDomains.take 10
    sysCommands := p.sysCommands.take 10
    sysImports := p.sysImports.take 20
    dataEnvVars := p.dataEnvVars
    dataCredentials := p.dataCredentials }

/-- `SkillScanner._generate_summary` (recomputes the rating from the
warnings, as the source does). -/
def generateSummary (ws : List Warning) : String :=
  let r := calculateRating ws
  if r.grade = "A+" || r.grade = "A" then
    "此 skill 看起来非常安全，没有发现明显风险，可以放心使用。"
  else if r.grade = "B" then
    "此 skill 总体可信，有一些需要注意的权限请求，建议审查后使用。"
  else if r.grade = "C" then
    "此 skill 有中等风险，请仔细审查权限和警告，确认安全后再安装。"
  else if r.grade = "D" then
    "此 skill 有高风险，建议谨慎使用或避免安装，除非完全理解其行为。"
  else
    "此 skill 检测到严重安全风险，强烈建议不要安装！"

/-- `SkillScanner._generate_recommendations`.  The source tests
`'subprocess' in str(self.permissions['system']['commands'])`; on the set of
recorded pattern strings this is a substring test on some element. -/
def generateRecommendations (ws : List Warning) (p : Permissions) : List String :=
  let r := calculateRating ws
  let recs : List String :=
    (if r.critical_count > 0 then ["立即审查所有 CRITICAL 级别的警告"] else [])
    ++ (if r.high_count > 0 then ["仔细评估 HIGH 级别的安全风险"] else [])
    ++ (if p.netDomains ≠ [] ∧ p.netDomains.length > 5 then
          ["技能需要访问 " ++ toString p.netDomains.length ++ " 个外部域名，确认都是必需的"]
        else [])
    ++ (if p.sysCommands.any (fun c => containsStr c "subprocess") then
          ["技能使用系统命令执行，确认来源可信"]
        else [])
  if recs = [] then ["没有发现特别的安全问题"] else recs

/-! ## The top-level scan -/

/-- `SkillScanner.scan` as the method of the stateful object: takes the
scanner's current mutable state, resets it (lines 90-97), and returns the
final state together with the result.  Parameters model the impure inputs:
`dg` is `hashlib.sha256(·).hexdigest()`, `sp` the `skill_path` string,
`root` the filesystem at that path (`none` = path does not exist), and
`now` the `datetime.now().isoformat()` timestamp. -/
def scanMethod (_self : ScanState) (dg : String → String) (sp : String)
    (root : Option Entry) (deep : Bool) (now : String) :
    ScanState × Except String ScanResult :=
  let self := emptyScanState
  match root with
  | none => (self, .error ("Path not found: " ++ sp))
  | some e =>
    let filesToScan := getFiles e
    if filesToScan = [] then
      (self, .error ("No scannable files found in: " ++ sp))
    else
      let self := filesToScan.foldl (fun st pf => scanFile dg deep st pf) self
      let self := if deep then deepScanPass e self else self
      let rating := calculateRating self.warnings
      (self,
       .ok { skill_path := sp
             scan_time := now
             trust_rating := rating.grade
             score := rating.score
             risk_level := rating.risk_level
             warnings := self.warnings
             permissions := serializePermissions self.perms
             files_scanned := filesToScan.length
             file_hashes := self.fileHashes
             summary := generateSummary self.warnings
             recommendations := generateRecommendations self.warnings self.perms })

/-- The result of one `scan` invocation on a fresh scanner. -/
def scan (dg : String → String) (sp : String) (root : Option Entry)
    (deep : Bool) (now : String) : Except String ScanResult :=
  (scanMethod emptyScanState dg sp root deep now).2

/-! ## Spec-side rating (follows the spec's words, for the refinement claim) -/

/-- Number of warnings of a given severity string. -/
def sevCount (sev : String) (ws : List Warning) : Nat :=
  ws.countP (fun w => w.severity = sev)

/-- Modelled from the spec's Rating Engine: the weighted deduction
`25·critical + 10·high + 5·medium + 2·low + 0·info` plus the flat penalties
(20 when two or more critical warnings exist, 10 when three or more high
warnings exist). -/
def specDeduction (ws : List Warning) : Int :=
  25 * (sevCount "critical" ws : Int) + 10 * (sevCount "high" ws : Int)
    + 5 * (sevCount "medium" ws : Int) + 2 * (sevCount "low" ws : Int)
    + 0 * (sevCount "info" ws : Int)
    + (if 2 ≤ sevCount "critical" ws then 20 else 0)
    + (if 3 ≤ sevCount "high" ws then 10 else 0)

/-- Modelled from the spec: start from 100, subtract the deductions, clamp
to `[0, 100]`. -/
def specScore (ws : List Warning) : Int :=
  max 0 (min 100 (100 - specDeduction ws))

/-- Modelled from the spec: the descending grade thresholds
`≥95→A+, ≥90→A, ≥80→B, ≥70→C, ≥60→D, else F`. -/
def specGrade (score : Int) : String :=
  if 95 ≤ score then "A+"
  else if 90 ≤ score then "A"
  else if 80 ≤ score then "B"
  else if 70 ≤ score then "C"
  else if 60 ≤ score then "D"
  else "F"

/-- The severity strings of the spec's `Warning` data model. -/
def validSeverity (s : String) : Bool :=
  s ∈ ["critical", "high", "medium", "low", "info"]

/-- Modelled from the spec: the risk labels attached to the same descending
thresholds as the grades. -/
def specRisk (score : Int) : String :=
  if 95 ≤ score then "极低"
  else if 90 ≤ score then "低"
  else if 80 ≤ score then "中低"
  else if 70 ≤ score then "中等"
  else if 60 ≤ score then "高"
  else "极高"

/-! ## Helper lemmas: warning-list bookkeeping -/

theorem warnings_subset_addWarning (st : ScanState) (t s d f : String) :
    st.warnings ⊆ (addWarning st t s d f).warnings := by
  unfold addWarning
  dsimp only
  split
  · exact fun _ h => h
  · exact fun w h => List.mem_append_left _ h

theorem mem_addWarning_self (st : ScanState) (t s d f : String) :
    (⟨t, s, d, f⟩ : Warning) ∈ (addWarning st t s d f).warnings := by
  unfold addWarning
  dsimp only
  split
  · assumption
  · exact List.mem_append_right _ (List.mem_singleton_self _)

theorem mem_addWarning {st : ScanState} {t s d f : String} {w : Warning}
    (h : w ∈ (addWarning st t s d f).warnings) :
    w ∈ st.warnings ∨ w = ⟨t, s, d, f⟩ := by
  unfold addWarning at h
  dsimp only at h
  split at h
  · exact Or.inl h
  · rcases List.mem_append.1 h with h' | h'
    · exact Or.inl h'
    · exact Or.inr (List.mem_singleton.1 h')

theorem nodup_addWarning {st : ScanState} (t s d f : String)
    (h : st.warnings.Nodup) : (addWarning st t s d f).warnings.Nodup := by
  unfold addWarning
  dsimp only
  split
  · exact h
  · rename_i hnot
    simpa [List.nodup_append] using ⟨h, hnot⟩

theorem addWarning_fileHashes (st : ScanState) (t s d f : String) :
    (addWarning st t s d f).fileHashes = st.fileHashes := by
  unfold addWarning
  dsimp only
  split <;> rfl

/-- Fold a step that only ever appends warnings satisfying `P`. -/
theorem foldl_warnAdds {α : Type} (g : ScanState → α → ScanState)
    (P : Warning → Prop) (l : List α)
    (hg : ∀ a ∈ l, ∀ st w, w ∈ (g st a).warnings → w ∈ st.warnings ∨ P w) :
    ∀ (st : ScanState) (w : Warning),
      w ∈ (l.foldl g st).warnings → w ∈ st.warnings ∨ P w := by
  induction l with
  | nil => exact fun st w h => Or.inl h
  | cons a r ih =>
    intro st w h
    simp only [List.foldl_cons] at h
    rcases ih (fun b hb => hg b (List.mem_cons_of_mem a hb)) (g st a) w h with h' | hP
    · exact hg a (List.mem_cons_self a r) st w h'
    · exact Or.inr hP

theorem foldl_warnSubset {α : Type} (g : ScanState → α → ScanState) (l : List α)
    (hg : ∀ a ∈ l, ∀ st, st.warnings ⊆ (g st a).warnings) :
    ∀ st : ScanState, st.warnings ⊆ (l.foldl g st).warnings := by
  induction l with
  | nil => exact fun st _ h => h
  | cons a r ih =>
    intro st w h
    simp only [List.foldl_cons]
    exact ih (fun b hb => hg b (List.mem_cons_of_mem a hb)) (g st a)
      (hg a (List.mem_cons_self a r) st h)

theorem foldl_warnNodup {α : Type} (g : ScanState → α → ScanState) (l : List α)
    (hg : ∀ a ∈ l, ∀ st : ScanState, st.warnings.Nodup → (g st a).warnings.Nodup) :
    ∀ st : ScanState, st.warnings.Nodup → (l.foldl g st).warnings.Nodup := by
  induction l with
  | nil => exact fun st h => h
  | cons a r ih =>
    intro st h
    simp only [List.foldl_cons]
    exact ih (fun b hb => hg b (List.mem_cons_of_mem a hb)) (g st a)
      (hg a (List.mem_cons_self a r) st h)

theorem foldl_hashEq {α : Type} (g : ScanState → α → ScanState) (l : List α)
    (hg : ∀ a ∈ l, ∀ st : ScanState, (g st a).fileHashes = st.fileHashes) :
    ∀ st : ScanState, (l.foldl g st).fileHashes = st.fileHashes := by
  induction l with
  | nil => exact fun st => rfl
  | cons a r ih =>
    intro st
    simp only [List.foldl_cons]
    rw [ih (fun b hb => hg b (List.mem_cons_of_mem a hb)) (g st a),
      hg a (List.mem_cons_self a r) st]

theorem foldl_warnEq {α : Type} (g : ScanState → α → ScanState) (l : List α)
    (hg : ∀ a ∈ l, ∀ st : ScanState, (g st a).warnings = st.warnings) :
    ∀ st : ScanState, (l.foldl g st).warnings = st.warnings := by
  induction l with
  | nil => exact fun st => rfl
  | cons a r ih =>
    intro st
    simp only [List.foldl_cons]
    rw [ih (fun b hb => hg b (List.mem_cons_of_mem a hb)) (g st a),
      hg a (List.mem_cons_self a r) st]

/-! ## Helper lemmas: the individual checks -/

/-- The warning types producible by `_scan_file` (everything except the
deep-scan pass's `hidden_file`). -/
def fileWarnTypes : List String :=
  ["sensitive_file", "suspicious_network", "system_command",
   "suspicious_pattern", "data_exfiltration", "obfuscation", "file_error"]

/-- The four bookkeeping facts for a single `_add_warning` call. -/
theorem addWarning_props (st : ScanState) (tag sev desc fname : String) :
    st.warnings ⊆ (addWarning st tag sev desc fname).warnings
    ∧ (∀ w ∈ (addWarning st tag sev desc fname).warnings,
        w ∈ st.warnings ∨ (w.type = tag ∧ w.file = fname))
    ∧ (st.warnings.Nodup → (addWarning st tag sev desc fname).warnings.Nodup)
    ∧ (addWarning st tag sev desc fname).fileHashes = st.fileHashes := by
  refine ⟨warnings_subset_addWarning st _ _ _ _, fun w h => ?_,
    nodup_addWarning _ _ _ _, addWarning_fileHashes st _ _ _ _⟩
  rcases mem_addWarning h with h' | rfl
  · exact Or.inl h'
  · exact Or.inr ⟨rfl, rfl⟩

section CheckLemmas

variable (content fname : String)

theorem sensitiveStep_props (row : String × Pat × String × String) (st : ScanState) :
    st.warnings ⊆ (sensitiveStep content fname st row).warnings
    ∧ (∀ w ∈ (sensitiveStep content fname st row).warnings,
        w ∈ st.warnings ∨ (w.type = "sensitive_file" ∧ w.file = fname))
    ∧ (st.warnings.Nodup → (sensitiveStep content fname st row).warnings.Nodup)
    ∧ (sensitiveStep content fname st row).fileHashes = st.fileHashes := by
  obtain ⟨pat, p, desc, sev⟩ := row
  unfold sensitiveStep
  dsimp only
  split
  · exact addWarning_props st _ _ _ _
  · exact ⟨fun _ h => h, fun w h => Or.inl h, fun h => h, rfl⟩

theorem checkSensitiveFiles_warnSubset (st : ScanState) :
    st.warnings ⊆ (checkSensitiveFiles content fname st).warnings := by
  unfold checkSensitiveFiles
  exact foldl_warnSubset _ _
    (fun a _ st => (sensitiveStep_props content fname a st).1) st

theorem checkSensitiveFiles_adds (st : ScanState) :
    ∀ w ∈ (checkSensitiveFiles content fname st).warnings,
      w ∈ st.warnings ∨ (w.type = "sensitive_file" ∧ w.file = fname) := by
  unfold checkSensitiveFiles
  exact foldl_warnAdds _ _ _
    (fun a _ st => (sensitiveStep_props content fname a st).2.1) st

theorem checkSensitiveFiles_nodup (st : ScanState) (h : st.warnings.Nodup) :
    (checkSensitiveFiles content fname st).warnings.Nodup := by
  unfold checkSensitiveFiles
  exact foldl_warnNodup _ _
    (fun a _ st => (sensitiveStep_props content fname a st).2.2.1) st h

theorem checkSensitiveFiles_hashEq (st : ScanState) :
    (checkSensitiveFiles content fname st).fileHashes = st.fileHashes := by
  unfold checkSensitiveFiles
  exact foldl_hashEq _ _
    (fun a _ st => (sensitiveStep_props content fname a st).2.2.2) st

theorem dangerStep_props (row : Pat × String × String) (st : ScanState) :
    st.warnings ⊆ (dangerStep content fname st row).warnings
    ∧ (∀ w ∈ (dangerStep content fname st row).warnings,
        w ∈ st.warnings ∨ (w.type = "system_command" ∧ w.file = fname))
    ∧ (st.warnings.Nodup → (dangerStep content fname st row).warnings.Nodup)
    ∧ (dangerStep content fname st row).fileHashes = st.fileHashes := by
  obtain ⟨p, desc, sev⟩ := row
  unfold dangerStep
  dsimp only
  split
  · exact addWarning_props st _ _ _ _
  · exact ⟨fun _ h => h, fun w h => Or.inl h, fun h => h, rfl⟩

theorem checkSystemCommands_warnSubset (st : ScanState) :
    st.warnings ⊆ (checkSystemCommands content fname st).warnings := by
  unfold checkSystemCommands
  exact foldl_warnSubset _ _
    (fun a _ st => (dangerStep_props content fname a st).1) st

theorem checkSystemCommands_adds (st : ScanState) :
    ∀ w ∈ (checkSystemCommands content fname st).warnings,
      w ∈ st.warnings ∨ (w.type = "system_command" ∧ w.file = fname) := by
  unfold checkSystemCommands
  exact foldl_warnAdds _ _ _
    (fun a _ st => (dangerStep_props content fname a st).2.1) st

theorem checkSystemCommands_nodup (st : ScanState) (h : st.warnings.Nodup) :
    (checkSystemCommands content fname st).warnings.Nodup := by
  unfold checkSystemCommands
  exact foldl_warnNodup _ _
    (fun a _ st => (dangerStep_props content fname a st).2.2.1) st h

theorem checkSystemCommands_hashEq (st : ScanState) :
    (checkSystemCommands content fname st).fileHashes = st.fileHashes := by
  unfold checkSystemCommands
  exact foldl_hashEq _ _
    (fun a _ st => (dangerStep_props content fname a st).2.2.2) st

theorem suspStep_props (row : Pat × String × String) (st : ScanState) :
    st.warnings ⊆ (suspStep content fname st row).warnings
    ∧ (∀ w ∈ (suspStep content fname st row).warnings,
        w ∈ st.warnings ∨ (w.type = "suspicious_pattern" ∧ w.file = fname))
    ∧ (st.warnings.Nodup → (suspStep content fname st row).warnings.Nodup)
    ∧ (suspStep content fname st row).fileHashes = st.fileHashes := by
  obtain ⟨p, desc, sev⟩ := row
  unfold suspStep
  dsimp only
  split
  · exact addWarning_props st _ _ _ _
  · exact ⟨fun _ h => h, fun w h => Or.inl h, fun h => h, rfl⟩

theorem checkSuspiciousPatterns_warnSubset (st : ScanState) :
    st.warnings ⊆ (checkSuspiciousPatterns content fname st).warnings := by
  unfold checkSuspiciousPatterns
  exact foldl_warnSubset _ _
    (fun a _ st => (suspStep_props content fname a st).1) st

theorem checkSuspiciousPatterns_adds (st : ScanState) :
    ∀ w ∈ (checkSuspiciousPatterns content fname st).warnings,
      w ∈ st.warnings ∨ (w.type = "suspicious_pattern" ∧ w.file = fname) := by
  unfold checkSuspiciousPatterns
  exact foldl_warnAdds _ _ _
    (fun a _ st => (suspStep_props content fname a st).2.1) st

theorem checkSuspiciousPatterns_nodup (st : ScanState) (h : st.warnings.Nodup) :
    (checkSuspiciousPatterns content fname st).warnings.Nodup := by
  unfold checkSuspiciousPatterns
  exact foldl_warnNodup _ _
    (fun a _ st => (suspStep_props content fname a st).2.2.1) st h

theorem checkSuspiciousPatterns_hashEq (st : ScanState) :
    (checkSuspiciousPatterns content fname st).fileHashes = st.fileHashes := by
  unfold checkSuspiciousPatterns
  exact foldl_hashEq _ _
    (fun a _ st => (suspStep_props content fname a st).2.2.2) st

theorem domainStep_props (dStr susp : String) (st : ScanState) :
    st.warnings ⊆ (domainStep fname dStr st susp).warnings
    ∧ (∀ w ∈ (domainStep fname dStr st susp).warnings,
        w ∈ st.warnings ∨ (w.type = "suspicious_network" ∧ w.file = fname))
    ∧ (st.warnings.Nodup → (domainStep fname dStr st susp).warnings.Nodup)
    ∧ (domainStep fname dStr st susp).fileHashes = st.fileHashes := by
  unfold domainStep
  split
  · exact addWarning_props st _ _ _ _
  · exact ⟨fun _ h => h, fun w h => Or.inl h, fun h => h, rfl⟩

theorem urlStep_props (url : List Char) (st : ScanState) :
    st.warnings ⊆ (urlStep fname st url).warnings
    ∧ (∀ w ∈ (urlStep fname st url).warnings,
        w ∈ st.warnings ∨ (w.type = "suspicious_network" ∧ w.file = fname))
    ∧ (st.warnings.Nodup → (urlStep fname st url).warnings.Nodup)
    ∧ (urlStep fname st url).fileHashes = st.fileHashes := by
  unfold urlStep
  dsimp only
  cases hd : domainOf url with
  | none => exact ⟨fun _ h => h, fun w h => Or.inl h, fun h => h, rfl⟩
  | some d =>
    dsimp only
    refine ⟨fun w h => ?_, fun w h => ?_, fun h => ?_, ?_⟩
    · exact foldl_warnSubset _ _
        (fun a _ st => (domainStep_props fname ⟨d⟩ a st).1)
        (permAddDomain (permAddUrl st ⟨url⟩) ⟨d⟩) h
    · exact foldl_warnAdds _ _ _
        (fun a _ st => (domainStep_props fname ⟨d⟩ a st).2.1)
        (permAddDomain (permAddUrl st ⟨url⟩) ⟨d⟩) w h
    · exact foldl_warnNodup _ _
        (fun a _ st => (domainStep_props fname ⟨d⟩ a st).2.2.1)
        (permAddDomain (permAddUrl st ⟨url⟩) ⟨d⟩) h
    · exact foldl_hashEq _ _
        (fun a _ st => (domainStep_props fname ⟨d⟩ a st).2.2.2)
        (permAddDomain (permAddUrl st ⟨url⟩) ⟨d⟩)

theorem reqStep_keep (row : String × Pat) (st : ScanState) :
    (reqStep content st row).warnings = st.warnings
    ∧ (reqStep content st row).fileHashes = st.fileHashes := by
  obtain ⟨pat, p⟩ := row
  unfold reqStep
  dsimp only
  split <;> exact ⟨rfl, rfl⟩

theorem checkNetworkRequests_warnSubset (st : ScanState) :
    st.warnings ⊆ (checkNetworkRequests content fname st).warnings := by
  unfold checkNetworkRequests
  dsimp only
  rw [foldl_warnEq (reqStep content) REQUEST_PATTERNS
    (fun a _ st => (reqStep_keep content a st).1)]
  exact foldl_warnSubset _ _ (fun a _ st => (urlStep_props fname a st).1) st

theorem checkNetworkRequests_adds (st : ScanState) :
    ∀ w ∈ (checkNetworkRequests content fname st).warnings,
      w ∈ st.warnings ∨ (w.type = "suspicious_network" ∧ w.file = fname) := by
  unfold checkNetworkRequests
  dsimp only
  rw [foldl_warnEq (reqStep content) REQUEST_PATTERNS
    (fun a _ st => (reqStep_keep content a st).1)]
  exact foldl_warnAdds _ _ _ (fun a _ st => (urlStep_props fname a st).2.1) st

theorem checkNetworkRequests_nodup (st : ScanState) (h : st.warnings.Nodup) :
    (checkNetworkRequests content fname st).warnings.Nodup := by
  unfold checkNetworkRequests
  dsimp only
  rw [foldl_warnEq (reqStep content) REQUEST_PATTERNS
    (fun a _ st => (reqStep_keep content a st).1)]
  exact foldl_warnNodup _ _ (fun a _ st => (urlStep_props fname a st).2.2.1) st h

theorem checkNetworkRequests_hashEq (st : ScanState) :
    (checkNetworkRequests content fname st).fileHashes = st.fileHashes := by
  unfold checkNetworkRequests
  dsimp only
  rw [foldl_hashEq (reqStep content) REQUEST_PATTERNS
    (fun a _ st => (reqStep_keep content a st).2)]
  exact foldl_hashEq _ _ (fun a _ st => (urlStep_props fname a st).2.2.2) st

theorem checkDataExfiltration_props (st : ScanState) :
    st.warnings ⊆ (checkDataExfiltration content fname st).warnings
    ∧ (∀ w ∈ (checkDataExfiltration content fname st).warnings,
        w ∈ st.warnings ∨ (w.type = "data_exfiltration" ∧ w.file = fname))
    ∧ (st.warnings.Nodup → (checkDataExfiltration content fname st).warnings.Nodup)
    ∧ (checkDataExfiltration content fname st).fileHashes = st.fileHashes := by
  unfold checkDataExfiltration
  split
  · exact addWarning_props st _ _ _ _
  · exact ⟨fun _ h => h, fun w h => Or.inl h, fun h => h, rfl⟩

theorem checkImports_warnEq (st : ScanState) :
    (checkImports content st).warnings = st.warnings := by
  unfold checkImports
  exact foldl_warnEq importStep _ (fun a _ st => rfl) st

theorem checkImports_hashEq (st : ScanState) :
    (checkImports content st).fileHashes = st.fileHashes := by
  unfold checkImports
  exact foldl_hashEq importStep _ (fun a _ st => rfl) st

theorem checkObfuscation_props (st : ScanState) :
    st.warnings ⊆ (checkObfuscation content fname st).warnings
    ∧ (∀ w ∈ (checkObfuscation content fname st).warnings,
        w ∈ st.warnings ∨ (w.type = "obfuscation" ∧ w.file = fname))
    ∧ (st.warnings.Nodup → (checkObfuscation content fname st).warnings.Nodup)
    ∧ (checkObfuscation content fname st).fileHashes = st.fileHashes := by
  unfold checkObfuscation
  dsimp only
  split
  · split
    · refine ⟨fun w h => (addWarning_props _ _ _ _ _).1 ((addWarning_props _ _ _ _ _).1 h),
        fun w h => ?_,
        fun h => (addWarning_props _ _ _ _ _).2.2.1 ((addWarning_props _ _ _ _ _).2.2.1 h),
        by rw [(addWarning_props _ _ _ _ _).2.2.2, (addWarning_props _ _ _ _ _).2.2.2]⟩
      rcases (addWarning_props _ _ _ _ _).2.1 w h with h' | hP
      · rcases (addWarning_props _ _ _ _ _).2.1 w h' with h'' | hP
        · exact Or.inl h''
        · exact Or.inr hP
      · exact Or.inr hP
    · exact addWarning_props st _ _ _ _
  · split
    · exact addWarning_props _ _ _ _ _
    · exact ⟨fun _ h => h, fun w h => Or.inl h, fun h => h, rfl⟩

end CheckLemmas

/-! ## Composition of the checks inside `_scan_file` -/

/-- Bundle of the bookkeeping facts a warning-producing state transform
satisfies: it only appends warnings, all new warnings satisfy `P`, it
preserves duplicate-freeness, and it leaves `file_hashes` alone. -/
structure StepOK (P : Warning → Prop) (f : ScanState → ScanState) : Prop where
  sub : ∀ st : ScanState, st.warnings ⊆ (f st).warnings
  adds : ∀ (st : ScanState) (w : Warning), w ∈ (f st).warnings → w ∈ st.warnings ∨ P w
  nodup : ∀ st : ScanState, st.warnings.Nodup → (f st).warnings.Nodup
  hash : ∀ st : ScanState, (f st).fileHashes = st.fileHashes

theorem StepOK.comp {P : Warning → Prop} {f g : ScanState → ScanState}
    (hf : StepOK P f) (hg : StepOK P g) : StepOK P (fun st => g (f st)) :=
  ⟨fun st => (hf.sub st).trans (hg.sub (f st)),
   fun st w h => ((hg.adds (f st) w h).imp_left (fun h' => hf.adds st w h')).elim
     (fun h' => h') (fun hP => Or.inr hP),
   fun st h => hg.nodup (f st) (hf.nodup st h),
   fun st => (hg.hash (f st)).trans (hf.hash st)⟩

theorem StepOK.mono {P Q : Warning → Prop} {f : ScanState → ScanState}
    (h : StepOK P f) (hpq : ∀ w, P w → Q w) : StepOK Q f :=
  ⟨h.sub, fun st w hw => (h.adds st w hw).imp_right (hpq w), h.nodup, h.hash⟩

theorem stepOK_of_keep {P : Warning → Prop} {f : ScanState → ScanState}
    (hw : ∀ st, (f st).warnings = st.warnings)
    (hh : ∀ st, (f st).fileHashes = st.fileHashes) : StepOK P f := by
  refine ⟨fun st w h => ?_, fun st w h => ?_, fun st h => ?_, hh⟩
  · rw [hw]; exact h
  · rw [hw st] at h; exact Or.inl h
  · rw [hw]; exact h

/-- The predicate satisfied by every warning `_scan_file` can add for a file
with base name `fname`. -/
def fileWarn (fname : String) (w : Warning) : Prop :=
  w.file = fname ∧ w.type ∈ fileWarnTypes

theorem checkSensitiveFiles_ok (content fname : String) :
    StepOK (fileWarn fname) (checkSensitiveFiles content fname) := by
  refine StepOK.mono (Q := fileWarn fname)
    (P := fun w => w.type = "sensitive_file" ∧ w.file = fname)
    ⟨checkSensitiveFiles_warnSubset content fname,
     fun st w h => checkSensitiveFiles_adds content fname st w h,
     checkSensitiveFiles_nodup content fname,
     checkSensitiveFiles_hashEq content fname⟩ ?_
  rintro w ⟨ht, hf⟩
  exact ⟨hf, by rw [ht]; decide⟩

theorem checkNetworkRequests_ok (content fname : String) :
    StepOK (fileWarn fname) (checkNetworkRequests content fname) := by
  refine StepOK.mono
    (P := fun w => w.type = "suspicious_network" ∧ w.file = fname)
    ⟨checkNetworkRequests_warnSubset content fname,
     fun st w h => checkNetworkRequests_adds content fname st w h,
     checkNetworkRequests_nodup content fname,
     checkNetworkRequests_hashEq content fname⟩ ?_
  rintro w ⟨ht, hf⟩
  exact ⟨hf, by rw [ht]; decide⟩

theorem checkSystemCommands_ok (content fname : String) :
    StepOK (fileWarn fname) (checkSystemCommands content fname) := by
  refine StepOK.mono
    (P := fun w => w.type = "system_command" ∧ w.file = fname)
    ⟨checkSystemCommands_warnSubset content fname,
     fun st w h => checkSystemCommands_adds content fname st w h,
     checkSystemCommands_nodup content fname,
     checkSystemCommands_hashEq content fname⟩ ?_
  rintro w ⟨ht, hf⟩
  exact ⟨hf, by rw [ht]; decide⟩

theorem checkSuspiciousPatterns_ok (content fname : String) :
    StepOK (fileWarn fname) (checkSuspiciousPatterns content fname) := by
  refine StepOK.mono
    (P := fun w => w.type = "suspicious_pattern" ∧ w.file = fname)
    ⟨checkSuspiciousPatterns_warnSubset content fname,
     fun st w h => checkSuspiciousPatterns_adds content fname st w h,
     checkSuspiciousPatterns_nodup content fname,
     checkSuspiciousPatterns_hashEq content fname⟩ ?_
  rintro w ⟨ht, hf⟩
  exact ⟨hf, by rw [ht]; decide⟩

theorem checkDataExfiltration_ok (content fname : String) :
    StepOK (fileWarn fname) (checkDataExfiltration content fname) := by
  refine StepOK.mono
    (P := fun w => w.type = "data_exfiltration" ∧ w.file = fname)
    ⟨fun st => (checkDataExfiltration_props content fname st).1,
     fun st w h => (checkDataExfiltration_props content fname st).2.1 w h,
     fun st => (checkDataExfiltration_props content fname st).2.2.1,
     fun st => (checkDataExfiltration_props content fname st).2.2.2⟩ ?_
  rintro w ⟨ht, hf⟩
  exact ⟨hf, by rw [ht]; decide⟩

theorem checkImports_ok (content fname : String) :
    StepOK (fileWarn fname) (checkImports content) :=
  stepOK_of_keep (checkImports_warnEq content) (checkImports_hashEq content)

theorem checkObfuscation_ok (content fname : String) :
    StepOK (fileWarn fname) (checkObfuscation content fname) := by
  refine StepOK.mono
    (P := fun w => w.type = "obfuscation" ∧ w.file = fname)
    ⟨fun st => (checkObfuscation_props content fname st).1,
     fun st w h => (checkObfuscation_props content fname st).2.1 w h,
     fun st => (checkObfuscation_props content fname st).2.2.1,
     fun st => (checkObfuscation_props content fname st).2.2.2⟩ ?_
  rintro w ⟨ht, hf⟩
  exact ⟨hf, by rw [ht]; decide⟩

/-- The whole sequence of checks `_scan_file` runs on a readable file. -/
theorem fileChecks_ok (content fname : String) (deep : Bool) :
    StepOK (fileWarn fname) (fun st =>
      let st := checkSensitiveFiles content fname st
      let st := checkNetworkRequests content fname st
      let st := checkSystemCommands content fname st
      let st := checkSuspiciousPatterns content fname st
      let st := checkDataExfiltration content fname st
      let st := checkImports content st
      if deep then checkObfuscation content fname st else st) := by
  have tail : StepOK (fileWarn fname)
      (fun st => if deep then checkObfuscation content fname st else st) := by
    cases deep
    · exact stepOK_of_keep (fun st => rfl) (fun st => rfl)
    · exact checkObfuscation_ok content fname
  exact (((((checkSensitiveFiles_ok content fname).comp
    (checkNetworkRequests_ok content fname)).comp
    (checkSystemCommands_ok content fname)).comp
    (checkSuspiciousPatterns_ok content fname)).comp
    (checkDataExfiltration_ok content fname)).comp
    ((checkImports_ok content fname).comp tail)

/-- The hash-map update `_scan_file` performs, in isolation. -/
def hashStep (dg : String → String) (h : List (String × String)) (pf : PFile) :
    List (String × String) :=
  match pf.2 with
  | .ok c => assocSet h (basename pf.1) (strTake (dg c) 16)
  | .error _ => h

theorem scanFile_warnSubset (dg : String → String) (deep : Bool) (pf : PFile)
    (st : ScanState) : st.warnings ⊆ (scanFile dg deep st pf).warnings := by
  obtain ⟨p, c⟩ := pf
  cases c with
  | error e => exact fun w h => List.mem_append_left _ h
  | ok content =>
    exact (fileChecks_ok content (basename p) deep).sub
      { st with fileHashes := assocSet st.fileHashes (basename p) (strTake (dg content) 16) }

theorem scanFile_adds (dg : String → String) (deep : Bool) (pf : PFile)
    (st : ScanState) :
    ∀ w ∈ (scanFile dg deep st pf).warnings,
      w ∈ st.warnings ∨ fileWarn (basename pf.1) w := by
  obtain ⟨p, c⟩ := pf
  cases c with
  | error e =>
    intro w h
    rcases List.mem_append.1 h with h' | h'
    · exact Or.inl h'
    · rw [List.mem_singleton] at h'
      subst h'
      exact Or.inr ⟨rfl, show "file_error" ∈ fileWarnTypes by decide⟩
  | ok content =>
    exact (fileChecks_ok content (basename p) deep).adds
      { st with fileHashes := assocSet st.fileHashes (basename p) (strTake (dg content) 16) }

theorem scanFile_nodup (dg : String → String) (deep : Bool) (pf : PFile)
    (st : ScanState) (hok : pf.2.isOk = true) (h : st.warnings.Nodup) :
    (scanFile dg deep st pf).warnings.Nodup := by
  obtain ⟨p, c⟩ := pf
  cases c with
  | error e => exact Bool.noConfusion hok
  | ok content =>
    exact (fileChecks_ok content (basename p) deep).nodup
      { st with fileHashes := assocSet st.fileHashes (basename p) (strTake (dg content) 16) } h

theorem scanFile_hashes (dg : String → String) (deep : Bool) (pf : PFile)
    (st : ScanState) :
    (scanFile dg deep st pf).fileHashes = hashStep dg st.fileHashes pf := by
  obtain ⟨p, c⟩ := pf
  cases c with
  | error e => rfl
  | ok content =>
    exact (fileChecks_ok content (basename p) deep).hash
      { st with fileHashes := assocSet st.fileHashes (basename p) (strTake (dg content) 16) }

/-! ## The per-file fold inside `scan` -/

theorem scanFold_subset (dg : String → String) (deep : Bool) (files : List PFile) :
    ∀ st : ScanState, st.warnings ⊆ (files.foldl (scanFile dg deep) st).warnings :=
  foldl_warnSubset _ _ (fun a _ st => scanFile_warnSubset dg deep a st)

theorem scanFold_adds (dg : String → String) (deep : Bool) (files : List PFile) :
    ∀ (st : ScanState) (w : Warning),
      w ∈ (files.foldl (scanFile dg deep) st).warnings →
      w ∈ st.warnings ∨ ∃ pf ∈ files, fileWarn (basename pf.1) w :=
  foldl_warnAdds _ _ _
    (fun a ha st w h => (scanFile_adds dg deep a st w h).imp_right (fun hp => ⟨a, ha, hp⟩))

theorem scanFold_nodup (dg : String → String) (deep : Bool) (files : List PFile)
    (hok : ∀ pf ∈ files, pf.2.isOk = true) :
    ∀ st : ScanState, st.warnings.Nodup → (files.foldl (scanFile dg deep) st).warnings.Nodup :=
  foldl_warnNodup _ _ (fun a ha st h => scanFile_nodup dg deep a st (hok a ha) h)

theorem scanFold_hashes (dg : String → String) (deep : Bool) (files : List PFile) :
    ∀ st : ScanState,
      (files.foldl (scanFile dg deep) st).fileHashes =
        files.foldl (hashStep dg) st.fileHashes := by
  induction files with
  | nil => exact fun st => rfl
  | cons a r ih =>
    intro st
    simp only [List.foldl_cons]
    rw [ih (scanFile dg deep st a), scanFile_hashes dg deep a st]

/-! ## The deep-scan pass -/

theorem hiddenStep_props (n : String) (st : ScanState) :
    st.warnings ⊆ (hiddenStep st n).warnings
    ∧ (∀ w ∈ (hiddenStep st n).warnings,
        w ∈ st.warnings ∨ (w.type = "hidden_file" ∧ w.file = ""))
    ∧ (st.warnings.Nodup → (hiddenStep st n).warnings.Nodup)
    ∧ (hiddenStep st n).fileHashes = st.fileHashes := by
  unfold hiddenStep
  exact addWarning_props st _ _ _ _

theorem deepScanPass_subset (root : Entry) (st : ScanState) :
    st.warnings ⊆ (deepScanPass root st).warnings := by
  unfold deepScanPass
  exact foldl_warnSubset _ _ (fun a _ st => (hiddenStep_props a st).1) st

theorem deepScanPass_adds (root : Entry) (st : ScanState) :
    ∀ w ∈ (deepScanPass root st).warnings,
      w ∈ st.warnings ∨ (w.type = "hidden_file" ∧ w.file = "") := by
  unfold deepScanPass
  exact foldl_warnAdds _ _ _ (fun a _ st w h => (hiddenStep_props a st).2.1 w h) st

theorem deepScanPass_nodup (root : Entry) (st : ScanState)
    (h : st.warnings.Nodup) : (deepScanPass root st).warnings.Nodup := by
  unfold deepScanPass
  exact foldl_warnNodup _ _ (fun a _ st h => (hiddenStep_props a st).2.2.1 h) st h

theorem deepScanPass_hashEq (root : Entry) (st : ScanState) :
    (deepScanPass root st).fileHashes = st.fileHashes := by
  unfold deepScanPass
  exact foldl_hashEq _ _ (fun a _ st => (hiddenStep_props a st).2.2.2) st

theorem hiddenFold_mem (l : List String) :
    ∀ (st : ScanState), ∀ n ∈ l,
      (⟨"hidden_file", "low", "发现隐藏文件: " ++ n, ""⟩ : Warning) ∈
        (l.foldl hiddenStep st).warnings := by
  induction l with
  | nil => intro st n h; exact absurd h (List.not_mem_nil n)
  | cons a r ih =>
    intro st n hn
    simp only [List.foldl_cons]
    rcases List.mem_cons.1 hn with rfl | hn'
    · exact foldl_warnSubset _ _ (fun b _ st => (hiddenStep_props b st).1)
        (hiddenStep st n) (mem_addWarning_self st _ _ _ _)
    · exact ih (hiddenStep st a) n hn'

/-- Every hidden file seen by the walk ends up as a `hidden_file` warning in
the state after the deep-scan pass. -/
theorem deepScanPass_mem (root : Entry) (st : ScanState) :
    ∀ n ∈ hiddenFiles root,
      (⟨"hidden_file", "low", "发现隐藏文件: " ++ n, ""⟩ : Warning) ∈
        (deepScanPass root st).warnings :=
  hiddenFold_mem (hiddenFiles root) st

/-! ## Characterization of a successful `scan` -/

/-- The scanner state at the end of a successful scan of `e`. -/
def scanFinalState (dg : String → String) (e : Entry) (deep : Bool) : ScanState :=
  let s := (getFiles e).foldl (fun st pf => scanFile dg deep st pf) emptyScanState
  if deep then deepScanPass e s else s

/-- The result dictionary a successful scan of `e` returns. -/
def scanResultOf (dg : String → String) (sp : String) (e : Entry) (deep : Bool)
    (now : String) : ScanResult :=
  let self := scanFinalState dg e deep
  let rating := calculateRating self.warnings
  { skill_path := sp
    scan_time := now
    trust_rating := rating.grade
    score := rating.score
    risk_level := rating.risk_level
    warnings := self.warnings
    permissions := serializePermissions self.perms
    files_scanned := (getFiles e).length
    file_hashes := self.fileHashes
    summary := generateSummary self.warnings
    recommendations := generateRecommendations self.warnings self.perms }

theorem scan_none_eq (dg : String → String) (sp : String) (deep : Bool) (now : String) :
    scan dg sp none deep now = .error ("Path not found: " ++ sp) := rfl

theorem scan_some_eq (dg : String → String) (sp : String) (e : Entry) (deep : Bool)
    (now : String) :
    scan dg sp (some e) deep now =
      if getFiles e = [] then .error ("No scannable files found in: " ++ sp)
      else .ok (scanResultOf dg sp e deep now) := by
  unfold scan scanMethod scanResultOf scanFinalState
  dsimp only
  by_cases h : getFiles e = [] <;> simp [h]

/-- Every warning in the final state comes from some selected file's checks,
or is a deep-scan `hidden_file` warning. -/
theorem finalState_adds (dg : String → String) (e : Entry) (deep : Bool) :
    ∀ w ∈ (scanFinalState dg e deep).warnings,
      (∃ pf ∈ getFiles e, fileWarn (basename pf.1) w)
        ∨ (w.type = "hidden_file" ∧ w.file = "") := by
  intro w h
  unfold scanFinalState at h
  dsimp only at h
  cases deep with
  | false =>
    rcases scanFold_adds dg false (getFiles e) emptyScanState w h with h' | h'
    · exact absurd h' (List.not_mem_nil w)
    · exact Or.inl h'
  | true =>
    rcases deepScanPass_adds e
      ((getFiles e).foldl (fun st pf => scanFile dg true st pf) emptyScanState) w h with h' | h'
    · rcases scanFold_adds dg true (getFiles e) emptyScanState w h' with h'' | h''
      · exact absurd h'' (List.not_mem_nil w)
      · exact Or.inl h''
    · exact Or.inr h'

theorem finalState_nodup (dg : String → String) (e : Entry) (deep : Bool)
    (hok : ∀ pf ∈ getFiles e, pf.2.isOk = true) :
    (scanFinalState dg e deep).warnings.Nodup := by
  unfold scanFinalState
  dsimp only
  cases deep with
  | false =>
    exact scanFold_nodup dg false (getFiles e) hok emptyScanState List.nodup_nil
  | true =>
    exact deepScanPass_nodup e
      ((getFiles e).foldl (fun st pf => scanFile dg true st pf) emptyScanState)
      (scanFold_nodup dg true (getFiles e) hok emptyScanState List.nodup_nil)

theorem finalState_hidden_mem (dg : String → String) (e : Entry) :
    ∀ n ∈ hiddenFiles e,
      (⟨"hidden_file", "low", "发现隐藏文件: " ++ n, ""⟩ : Warning) ∈
        (scanFinalState dg e true).warnings := by
  unfold scanFinalState
  dsimp only
  exact deepScanPass_mem e
    ((getFiles e).foldl (fun st pf => scanFile dg true st pf) emptyScanState)

theorem finalState_hashes (dg : String → String) (e : Entry) (deep : Bool) :
    (scanFinalState dg e deep).fileHashes = (getFiles e).foldl (hashStep dg) [] := by
  unfold scanFinalState
  dsimp only
  cases deep with
  | false => exact scanFold_hashes dg false (getFiles e) emptyScanState
  | true =>
    refine Eq.trans (deepScanPass_hashEq e
      ((getFiles e).foldl (fun st pf => scanFile dg true st pf) emptyScanState)) ?_
    exact scanFold_hashes dg true (getFiles e) emptyScanState

/-! ## Association-list (`dict`) lemmas for the file-hash map -/

theorem lookupA_assocSet (l : List (String × String)) (k v k' : String) :
    lookupA (assocSet l k v) k' = if k = k' then some v else lookupA l k' := by
  induction l with
  | nil => simp [assocSet, lookupA]
  | cons p r ih =>
    obtain ⟨a, b⟩ := p
    simp only [assocSet]
    by_cases hak : a = k
    · subst hak
      simp only [if_pos rfl, lookupA]
      by_cases h : a = k'
      · simp [h]
      · simp [h]
    · simp only [if_neg hak, lookupA]
      by_cases h : a = k'
      · have hkk : ¬ k = k' := fun hk => hak (h.trans hk.symm)
        simp [h, hkk]
      · simp [h, ih]

theorem assocSet_length (l : List (String × String)) (k v : String) :
    (assocSet l k v).length ≤ l.length + 1 := by
  induction l with
  | nil => simp [assocSet]
  | cons p r ih =>
    obtain ⟨a, b⟩ := p
    by_cases hak : a = k
    · simp [assocSet, hak]
    · simp only [assocSet, if_neg hak, List.length_cons]
      omega

theorem hashFold_length (dg : String → String) (files : List PFile) :
    ∀ h : List (String × String),
      (files.foldl (hashStep dg) h).length ≤ h.length + files.length := by
  induction files with
  | nil => simp
  | cons a r ih =>
    intro h
    simp only [List.foldl_cons, List.length_cons]
    refine (ih (hashStep dg h a)).trans ?_
    have : (hashStep dg h a).length ≤ h.length + 1 := by
      unfold hashStep
      rcases a with ⟨p, c⟩
      cases c
      · simp
      · exact assocSet_length h _ _
    omega

/-- The pairs (base name, content) of readable selected files, in scan
order. -/
def okPairs (files : List PFile) : List (String × String) :=
  files.filterMap (fun pf =>
    match pf.2 with
    | .ok c => some (basename pf.1, c)
    | .error _ => none)

theorem hashFold_lookup (dg : String → String) (files : List PFile) :
    ∀ (h : List (String × String)) (n : String),
      lookupA (files.foldl (hashStep dg) h) n =
        ((okPairs files).filter (fun q => q.1 = n)).foldl
          (fun _ q => some (strTake (dg q.2) 16)) (lookupA h n) := by
  induction files with
  | nil => intro h n; rfl
  | cons a r ih =>
    obtain ⟨p, c⟩ := a
    cases c with
    | error e =>
      intro h n
      simp only [List.foldl_cons]
      rw [ih]
      simp [okPairs, List.filterMap_cons, hashStep]
    | ok content =>
      intro h n
      simp only [List.foldl_cons]
      rw [ih]
      simp only [hashStep]
      rw [lookupA_assocSet]
      simp only [okPairs, List.filterMap_cons]
      by_cases hbn : basename p = n
      · simp [List.filter_cons, hbn]
      · simp [List.filter_cons, hbn]

theorem foldl_lastWins (dg : String → String) (l : List (String × String)) :
    ∀ init : Option String,
      l.foldl (fun _ q => some (strTake (dg q.2) 16)) init =
        (match l.getLast? with
         | some q => some (strTake (dg q.2) 16)
         | none => init) := by
  induction l with
  | nil => intro init; rfl
  | cons a r ih =>
    intro init
    simp only [List.foldl_cons]
    rw [ih]
    cases r with
    | nil => rfl
    | cons b t =>
      rw [List.getLast?_cons_cons]
      cases hbt : (b :: t).getLast? with
      | none => simp at hbt
      | some q => rfl

/-! ## Rating-engine lemmas -/

/-- Total per-warning weighted deduction of `_calculate_rating`'s loop. -/
def sumW (ws : List Warning) : Int :=
  (ws.map (fun w => severityWeight w.severity)).sum

theorem tally_go (ws : List Warning) :
    ∀ (a : Int) (b c : Nat),
      ws.foldl (fun acc w =>
        (acc.1 - severityWeight w.severity,
         (if w.severity = "critical" then acc.2.1 + 1 else acc.2.1),
         (if w.severity = "high" then acc.2.2 + 1 else acc.2.2))) (a, b, c)
      = (a - sumW ws, b + sevCount "critical" ws, c + sevCount "high" ws) := by
  induction ws with
  | nil => intro a b c; simp [sumW, sevCount]
  | cons w r ih =>
    intro a b c
    simp only [List.foldl_cons]
    rw [ih]
    simp only [sumW, sevCount, List.map_cons, List.sum_cons, List.countP_cons,
      Prod.mk.injEq]
    by_cases hc : w.severity = "critical" <;> by_cases hh : w.severity = "high"
    · exact absurd (hc.symm.trans hh) (by decide)
    · refine ⟨by omega, ?_, ?_⟩ <;>
        simp [hc, hh, Nat.add_assoc, Nat.add_comm, Nat.add_left_comm]
    · refine ⟨by omega, ?_, ?_⟩ <;>
        simp [hc, hh, Nat.add_assoc, Nat.add_comm, Nat.add_left_comm]
    · refine ⟨by omega, ?_, ?_⟩ <;>
        simp [hc, hh, Nat.add_assoc, Nat.add_comm, Nat.add_left_comm]

theorem ratingTally_eq (ws : List Warning) :
    ratingTally ws = (100 - sumW ws, sevCount "critical" ws, sevCount "high" ws) := by
  unfold ratingTally
  rw [tally_go]
  simp

theorem calculateRating_score (ws : List Warning) :
    (calculateRating ws).score =
      max 0 (min 100 (100 - sumW ws
        - (if 2 ≤ sevCount "critical" ws then 20 else 0)
        - (if 3 ≤ sevCount "high" ws then 10 else 0))) := by
  unfold calculateRating
  rw [ratingTally_eq]
  dsimp only
  by_cases hc2 : 2 ≤ sevCount "critical" ws <;> by_cases hh3 : 3 ≤ sevCount "high" ws <;>
    simp [hc2, hh3, ge_iff_le]

theorem calculateRating_grade (ws : List Warning) :
    (calculateRating ws).grade = gradeOfScore ((calculateRating ws).score) := rfl

theorem calculateRating_risk (ws : List Warning) :
    (calculateRating ws).risk_level = riskOfScore ((calculateRating ws).score) := rfl

theorem calculateRating_counts (ws : List Warning) :
    (calculateRating ws).critical_count = sevCount "critical" ws
    ∧ (calculateRating ws).high_count = sevCount "high" ws := by
  unfold calculateRating
  rw [ratingTally_eq]
  exact ⟨rfl, rfl⟩

theorem severityWeight_nonneg (s : String) : 0 ≤ severityWeight s := by
  unfold severityWeight
  split_ifs <;> norm_num

theorem sumW_sublist {ws ws' : List Warning} (h : ws.Sublist ws') :
    sumW ws ≤ sumW ws' := by
  refine List.Sublist.sum_le_sum (h.map (fun w => severityWeight w.severity)) ?_
  intro a ha
  rcases List.mem_map.1 ha with ⟨w, _, rfl⟩
  exact severityWeight_nonneg _

theorem sevCount_sublist (sev : String) {ws ws' : List Warning}
    (h : ws.Sublist ws') : sevCount sev ws ≤ sevCount sev ws' :=
  List.Sublist.countP_le _ h

theorem sumW_valid (ws : List Warning)
    (h : ∀ w ∈ ws, validSeverity w.severity = true) :
    sumW ws = 25 * (sevCount "critical" ws : Int) + 10 * (sevCount "high" ws : Int)
      + 5 * (sevCount "medium" ws : Int) + 2 * (sevCount "low" ws : Int) := by
  induction ws with
  | nil => simp [sumW, sevCount]
  | cons w r ih =>
    have hw := h w (List.mem_cons_self w r)
    have hr := ih (fun x hx => h x (List.mem_cons_of_mem w hx))
    have hs : w.severity = "critical" ∨ w.severity = "high" ∨ w.severity = "medium"
        ∨ w.severity = "low" ∨ w.severity = "info" := by
      simpa [validSeverity] using hw
    simp only [sumW, List.map_cons, List.sum_cons, sevCount, List.countP_cons] at hr ⊢
    rcases hs with hs | hs | hs | hs | hs
    · rw [hs, show severityWeight "critical" = 25 from rfl]
      simp
      omega
    · rw [hs, show severityWeight "high" = 10 from rfl]
      simp
      omega
    · rw [hs, show severityWeight "medium" = 5 from rfl]
      simp
      omega
    · rw [hs, show severityWeight "low" = 2 from rfl]
      simp
      omega
    · rw [hs, show severityWeight "info" = 0 from rfl]
      simp
      omega

/-! ## File-selector walk lemmas -/

theorem filesHere_shape (path : List String) (es : EntryList) :
    ∀ (p : List String) (c : Except String String),
      (p, c) ∈ filesHere path es →
      ∃ n, p = path ++ [n] ∧ scannableExt n = true := by
  induction es using filesHere.induct path with
  | case1 =>
    intro p c h
    simp only [filesHere] at h
    exact absurd h (List.not_mem_nil _)
  | case2 n cc r ih =>
    intro p c h
    simp only [filesHere] at h
    rcases List.mem_append.1 h with h' | h'
    · by_cases hs : scannableExt n
      · rw [if_pos hs, List.mem_singleton] at h'
        rw [Prod.ext_iff] at h'
        exact ⟨n, h'.1, hs⟩
      · rw [if_neg hs] at h'
        exact absurd h' (List.not_mem_nil _)
    · exact ih p c h'
  | case3 d sub r ih =>
    intro p c h
    simp only [filesHere] at h
    exact ih p c h

theorem walkSub_shape (path : List String) (es : EntryList) :
    ∀ (p : List String) (c : Except String String),
      (p, c) ∈ walkSub path es →
      ∃ mid n, p = path ++ mid ++ [n] ∧ mid ≠ []
        ∧ (∀ d ∈ mid, prunedDir d = false) ∧ scannableExt n = true := by
  induction path, es using walkSub.induct with
  | case1 path =>
    intro p c h
    simp only [walkSub] at h
    exact absurd h (List.not_mem_nil _)
  | case2 path n cc r ihr =>
    intro p c h
    simp only [walkSub] at h
    exact ihr p c h
  | case3 path d sub r ihsub ihr =>
    intro p c h
    simp only [walkSub] at h
    rcases List.mem_append.1 h with h' | h'
    · by_cases hp : prunedDir d
      · rw [if_pos hp] at h'
        exact absurd h' (List.not_mem_nil _)
      · rw [if_neg hp] at h'
        rcases List.mem_append.1 h' with h'' | h''
        · rcases filesHere_shape (path ++ [d]) sub p c h'' with ⟨n, hn, hscan⟩
          refine ⟨[d], n, ?_, by simp, ?_, hscan⟩
          · simpa using hn
          · intro x hx
            rw [List.mem_singleton] at hx
            subst hx
            exact Bool.not_eq_true _ ▸ (by simpa using hp)
        · rcases ihsub p c h'' with ⟨mid, n, hn, hne, hall, hscan⟩
          refine ⟨d :: mid, n, by simpa using hn, by simp, ?_, hscan⟩
          intro x hx
          rcases List.mem_cons.1 hx with rfl | hx'
          · simpa using hp
          · exact hall x hx'
    · exact ihr p c h'

/-- Shape of every path produced by `_get_files` on a directory: the root
component, then only non-pruned directory components, then the file name. -/
theorem getFiles_dir_shape (dn : String) (es : EntryList) (p : List String)
    (c : Except String String) (h : (p, c) ∈ getFiles (.dir dn es)) :
    ∃ mid n, p = dn :: (mid ++ [n]) ∧ (∀ d ∈ mid, prunedDir d = false)
      ∧ scannableExt n = true := by
  unfold getFiles walkDir at h
  rcases List.mem_append.1 h with h' | h'
  · rcases filesHere_shape [dn] es p c h' with ⟨n, hn, hscan⟩
    exact ⟨[], n, by simpa using hn, by simp, hscan⟩
  · rcases walkSub_shape [dn] es p c h' with ⟨mid, n, hn, _, hall, hscan⟩
    exact ⟨mid, n, by simpa using hn, hall, hscan⟩

/-- When deep scan is off, every warning of the final state comes from some
selected file's checks. -/
theorem finalState_false_adds (dg : String → String) (e : Entry) :
    ∀ w ∈ (scanFinalState dg e false).warnings,
      ∃ pf ∈ getFiles e, fileWarn (basename pf.1) w := by
  intro w h
  rcases scanFold_adds dg false (getFiles e) emptyScanState w h with h' | h'
  · exact absurd h' (List.not_mem_nil w)
  · exact h'

/-! ## Concrete fixtures used by witnesses and counterexamples -/

/-- Two directories each holding a file named `x.py`, both triggering the
`password` sensitive-file rule. -/
def exDir2 : Entry :=
  .dir "s" (.cons (.dir "a" (.cons (.file "x.py" (.ok "password_a")) .nil))
    (.cons (.dir "b" (.cons (.file "x.py" (.ok "password_b")) .nil)) .nil))

/-- One ordinary file and one hidden file. -/
def exHidden : Entry :=
  .dir "skill" (.cons (.file "a.py" (.ok "")) (.cons (.file ".secret" (.ok "")) .nil))

/-- A default result record, used only to destructure `Except` values in
concrete examples. -/
def fallbackResult : ScanResult :=
  { skill_path := "", scan_time := "", trust_rating := "", score := 0,
    risk_level := "", warnings := [], permissions := serializePermissions emptyPermissions,
    files_scanned := 0, file_hashes := [], summary := "", recommendations := [] }

/-- The concrete result of scanning `exDir2` (shallow). -/
def exDir2Result : ScanResult :=
  (scan (fun c => c) "s" (some exDir2) false "t").toOption.getD fallbackResult

/-- The concrete result of scanning `exHidden` with deep scan on. -/
def exHiddenResult : ScanResult :=
  (scan (fun c => c) "p" (some exHidden) true "t").toOption.getD fallbackResult

/-! ## The claims -/

/-- C1: for every warning list (with severities drawn from the spec's
severity enumeration), `_calculate_rating` starts from 100, subtracts 25 per
critical, 10 per high, 5 per medium, 2 per low and 0 per info warning,
subtracts a flat 20 when there are two or more critical warnings and a flat
10 when there are three or more high warnings, clamps to `[0, 100]`, and
maps the score to grade and risk label by the thresholds
`≥95→A+, ≥90→A, ≥80→B, ≥70→C, ≥60→D, else F`; in particular a total
deduction of exactly 10 (score 90) yields grade `A` and a deduction of 11
(score 89) yields grade `B`. -/
theorem C1_rating_engine (ws : List Warning)
    (hv : ∀ w ∈ ws, validSeverity w.severity = true) :
    (calculateRating ws).score = specScore ws
    ∧ (calculateRating ws).grade = specGrade (specScore ws)
    ∧ (calculateRating ws).risk_level = specRisk (specScore ws)
    ∧ (specDeduction ws = 10 → (calculateRating ws).grade = "A")
    ∧ (specDeduction ws = 11 → (calculateRating ws).grade = "B") := by
  have hsum := sumW_valid ws hv
  have hscore : (calculateRating ws).score = specScore ws := by
    rw [calculateRating_score]
    unfold specScore specDeduction
    split_ifs <;> omega
  refine ⟨hscore, ?_, ?_, ?_, ?_⟩
  · rw [calculateRating_grade, hscore]; rfl
  · rw [calculateRating_risk, hscore]; rfl
  · intro hD
    rw [calculateRating_grade, hscore]
    unfold specScore
    rw [hD]
    decide
  · intro hD
    rw [calculateRating_grade, hscore]
    unfold specScore
    rw [hD]
    decide

theorem C1_rating_engine_witness :
    (calculateRating [⟨"t", "high", "d", "f"⟩]).grade = "A"
    ∧ (calculateRating [⟨"t", "medium", "d", "f"⟩, ⟨"t", "low", "d1", "f"⟩,
        ⟨"t", "low", "d2", "f"⟩, ⟨"t", "low", "d3", "f"⟩]).grade = "B" :=
  ⟨(C1_rating_engine _ (by decide)).2.2.2.1 (by decide),
   (C1_rating_engine _ (by decide)).2.2.2.2 (by decide)⟩

/-- C7: the rating can only drop when warnings are added.  A modification
that adds new rule-triggering content makes the original scan's warning
list a sublist of the modified scan's list (the severity weights and flat
penalties are all nonnegative and monotone in the counts), so the score of
the larger list is less than or equal to the score of the smaller one. -/
theorem C7_score_monotone (ws ws' : List Warning) (h : ws.Sublist ws') :
    (calculateRating ws').score ≤ (calculateRating ws).score := by
  rw [calculateRating_score, calculateRating_score]
  have h1 := sumW_sublist h
  have h2 := sevCount_sublist "critical" h
  have h3 := sevCount_sublist "high" h
  split_ifs <;> omega

theorem C7_score_monotone_witness :
    (calculateRating [⟨"t", "high", "d", "f"⟩]).score ≤ (calculateRating []).score :=
  C7_score_monotone [] [⟨"t", "high", "d", "f"⟩] (List.nil_sublist _)

/-- C9: `_serialize_permissions` truncates the permission lists to the fixed
caps 10 (files.read), 5 (files.write), 5 (files.delete), 10 (network.urls),
10 (network.domains), 10 (system.commands), 20 (system.imports), and leaves
data.env_vars and data.credentials unbounded; each serialized list is a
prefix of the accumulated set's enumeration. -/
theorem C9_serialization_caps (p : Permissions) :
    ((serializePermissions p).filesRead.length = min 10 p.filesRead.length
      ∧ (serializePermissions p).filesRead.IsPrefix p.filesRead)
    ∧ ((serializePermissions p).filesWrite.length = min 5 p.filesWrite.length
      ∧ (serializePermissions p).filesWrite.IsPrefix p.filesWrite)
    ∧ ((serializePermissions p).filesDelete.length = min 5 p.filesDelete.length
      ∧ (serializePermissions p).filesDelete.IsPrefix p.filesDelete)
    ∧ ((serializePermissions p).netUrls.length = min 10 p.netUrls.length
      ∧ (serializePermissions p).netUrls.IsPrefix p.netUrls)
    ∧ ((serializePermissions p).netDomains.length = min 10 p.netDomains.length
      ∧ (serializePermissions p).netDomains.IsPrefix p.netDomains)
    ∧ ((serializePermissions p).sysCommands.length = min 10 p.sysCommands.length
      ∧ (serializePermissions p).sysCommands.IsPrefix p.sysCommands)
    ∧ ((serializePermissions p).sysImports.length = min 20 p.sysImports.length
      ∧ (serializePermissions p).sysImports.IsPrefix p.sysImports)
    ∧ (serializePermissions p).dataEnvVars = p.dataEnvVars
    ∧ (serializePermissions p).dataCredentials = p.dataCredentials :=
  ⟨⟨List.length_take 10 p.filesRead, List.take_prefix 10 p.filesRead⟩,
   ⟨List.length_take 5 p.filesWrite, List.take_prefix 5 p.filesWrite⟩,
   ⟨List.length_take 5 p.filesDelete, List.take_prefix 5 p.filesDelete⟩,
   ⟨List.length_take 10 p.netUrls, List.take_prefix 10 p.netUrls⟩,
   ⟨List.length_take 10 p.netDomains, List.take_prefix 10 p.netDomains⟩,
   ⟨List.length_take 10 p.sysCommands, List.take_prefix 10 p.sysCommands⟩,
   ⟨List.length_take 20 p.sysImports, List.take_prefix 20 p.sysImports⟩,
   rfl, rfl⟩

/-- C3: `_check_data_exfiltration` raises exactly one `data_exfiltration`
warning iff the file text both reads process environment variables
(`os.environ`/`getenv`) and performs an outbound write-style network call
(`requests.post|put|patch` or `urllib`); the warning is `high`, escalated to
`critical` iff the text also contains `json.dumps`; with either conjunct
absent it raises nothing. -/
theorem C3_exfiltration (content fname : String) :
    ((hasEnvRead content = true ∧ hasHttpSend content = true) →
      (checkDataExfiltration content fname emptyScanState).warnings =
        [⟨"data_exfiltration",
          (if hasJsonEncode content then "critical" else "high"),
          "可能读取环境变量并发送到外部", fname⟩])
    ∧ ((hasEnvRead content = false ∨ hasHttpSend content = false) →
      (checkDataExfiltration content fname emptyScanState).warnings = []) := by
  constructor
  · rintro ⟨h1, h2⟩
    unfold checkDataExfiltration addWarning
    simp [h1, h2, emptyScanState]
  · intro h
    unfold checkDataExfiltration
    rcases h with h | h <;> simp [h, emptyScanState]

theorem C3_exfiltration_witness :
    (checkDataExfiltration "x = os.environ\nrequests.post(u, json.dumps(d))"
      "a.py" emptyScanState).warnings =
      [⟨"data_exfiltration", "critical", "可能读取环境变量并发送到外部", "a.py"⟩]
    ∧ (checkDataExfiltration "print(1)" "a.py" emptyScanState).warnings = [] :=
  ⟨(C3_exfiltration _ "a.py").1 ⟨rfl, rfl⟩,
   (C3_exfiltration _ "a.py").2 (Or.inl rfl)⟩

/-- C4: `scan` fails with the `Path not found` error when the path does not
exist, fails with the `No scannable files found` error when file selection is
empty, and otherwise returns a full `ScanResult`; the error cases return no
partial result (the `Except` carries only the error string). -/
theorem C4_terminal_errors (dg : String → String) (sp : String) (deep : Bool)
    (now : String) :
    scan dg sp none deep now = .error ("Path not found: " ++ sp)
    ∧ (∀ e : Entry, getFiles e = [] →
        scan dg sp (some e) deep now = .error ("No scannable files found in: " ++ sp))
    ∧ (∀ e : Entry, getFiles e ≠ [] →
        ∃ r : ScanResult, scan dg sp (some e) deep now = .ok r) := by
  refine ⟨scan_none_eq dg sp deep now, ?_, ?_⟩
  · intro e he
    rw [scan_some_eq, if_pos he]
  · intro e he
    rw [scan_some_eq, if_neg he]
    exact ⟨_, rfl⟩

theorem C4_terminal_errors_witness :
    scan (fun c => c) "p" (some (.file "a" (.ok ""))) false "t" =
      .error ("No scannable files found in: " ++ "p")
    ∧ ∃ r, scan (fun c => c) "p" (some (.file "a.py" (.ok ""))) false "t" = .ok r :=
  ⟨(C4_terminal_errors (fun c => c) "p" false "t").2.1 _ rfl,
   (C4_terminal_errors (fun c => c) "p" false "t").2.2 _ (by decide)⟩

/-- The result with its timestamp field cleared, for comparing scans run at
different times. -/
def stripTime (r : ScanResult) : ScanResult := { r with scan_time := "" }

/-- C8: two invocations of `scan` on the same path/content/deep flag produce
identical results apart from the timestamp, regardless of the scanner
object's prior accumulated state — the method resets all state (warnings,
permission sets, fingerprints) on entry and keeps no cross-scan state. -/
theorem C8_deterministic (st₁ st₂ : ScanState) (dg : String → String)
    (sp : String) (root : Option Entry) (deep : Bool) (t₁ t₂ : String) :
    ((scanMethod st₁ dg sp root deep t₁).2).map stripTime =
      ((scanMethod st₂ dg sp root deep t₂).2).map stripTime := by
  cases root with
  | none => rfl
  | some e =>
    show (scan dg sp (some e) deep t₁).map stripTime =
      (scan dg sp (some e) deep t₂).map stripTime
    rw [scan_some_eq, scan_some_eq]
    by_cases h : getFiles e = []
    · rw [if_pos h, if_pos h]
    · rw [if_neg h, if_neg h]
      rfl

/-- C2 counterexample: two distinct selected files (`s/a/x.py` and
`s/b/x.py`) both match the same sensitive-file rule, yet the scan produces a
single warning, because `_add_warning` stores only the base name `x.py` in
the `file` field and deduplicates on it — contradicting the claim that
warnings from distinct files always remain distinct Warnings. -/
theorem C2_distinct_files_counterexample :
    (getFiles exDir2).map Prod.fst = [["s", "a", "x.py"], ["s", "b", "x.py"]]
    ∧ (scan (fun c => c) "s" (some exDir2) false "t").map (fun r => r.warnings) =
        .ok [⟨"sensitive_file", "high", "访问密码相关文件", "x.py"⟩] :=
  ⟨rfl, rfl⟩

/-- C2 (amended): in a scan in which every selected file is readable, the
warning collection contains no two warnings equal on all four fields
(repeated matches of the same rule therefore collapse to one Warning);
warnings from distinct files remain distinct only when their base names
differ, since the `file` field records the base name, and read-error
warnings are appended without the dedup check. -/
theorem C2_warning_dedup (dg : String → String) (sp : String) (root : Entry)
    (deep : Bool) (now : String) (r : ScanResult)
    (hok : ∀ pf ∈ getFiles root, pf.2.isOk = true)
    (h : scan dg sp (some root) deep now = .ok r) :
    r.warnings.Nodup := by
  rw [scan_some_eq] at h
  by_cases he : getFiles root = []
  · rw [if_pos he] at h; cases h
  · rw [if_neg he] at h
    injection h with h2
    subst h2
    exact finalState_nodup dg root deep hok

theorem C2_warning_dedup_witness : exDir2Result.warnings.Nodup :=
  C2_warning_dedup (fun c => c) "s" exDir2 false "t" exDir2Result (by decide) rfl

/-- C5: the File Selector includes a single-file path iff its extension is
in the scannable allow-list; on a directory it recurses and prunes every
directory whose name starts with `'.'` or is one of `node_modules`,
`__pycache__`, `venv`, `.git` — every selected path consists of the root,
then non-pruned directory components only, then a scannable file name — and
every warning of a successful scan carries either an empty `file` field or
the base name of a selected file. -/
theorem C5_file_selector :
    (∀ (n : String) (c : Except String String),
      (([n], c) ∈ getFiles (.file n c)) ↔ scannableExt n = true)
    ∧ (∀ (dn : String) (es : EntryList) (p : List String)
        (c : Except String String),
        (p, c) ∈ getFiles (.dir dn es) →
        ∃ mid fn, p = dn :: (mid ++ [fn]) ∧ (∀ d ∈ mid, prunedDir d = false)
          ∧ scannableExt fn = true)
    ∧ (∀ (dg : String → String) (sp : String) (root : Entry) (deep : Bool)
        (now : String) (r : ScanResult),
        scan dg sp (some root) deep now = .ok r →
        ∀ w ∈ r.warnings,
          w.file = "" ∨ ∃ pf ∈ getFiles root, w.file = basename pf.1) := by
  refine ⟨?_, ?_, ?_⟩
  · intro n c
    unfold getFiles
    by_cases hs : scannableExt n
    · simp [hs]
    · simp [hs]
  · exact fun dn es p c h => getFiles_dir_shape dn es p c h
  · intro dg sp root deep now r h w hw
    rw [scan_some_eq] at h
    by_cases he : getFiles root = []
    · rw [if_pos he] at h; cases h
    · rw [if_neg he] at h
      injection h with h2
      subst h2
      rcases finalState_adds dg root deep w hw with ⟨pf, hpf, hfw⟩ | ⟨_, hfile⟩
      · exact Or.inr ⟨pf, hpf, hfw.1⟩
      · exact Or.inl hfile

theorem C5_file_selector_witness :
    (∃ mid fn, (["s", "a", "x.py"] : List String) = "s" :: (mid ++ [fn])
      ∧ (∀ d ∈ mid, prunedDir d = false) ∧ scannableExt fn = true)
    ∧ ((⟨"sensitive_file", "high", "访问密码相关文件", "x.py"⟩ : Warning).file = ""
        ∨ ∃ pf ∈ getFiles exDir2,
          (⟨"sensitive_file", "high", "访问密码相关文件", "x.py"⟩ : Warning).file =
            basename pf.1) :=
  ⟨C5_file_selector.2.1 "s"
      (.cons (.dir "a" (.cons (.file "x.py" (.ok "password_a")) .nil))
        (.cons (.dir "b" (.cons (.file "x.py" (.ok "password_b")) .nil)) .nil))
      ["s", "a", "x.py"] (.ok "password_a") (by decide),
   C5_file_selector.2.2 (fun c => c) "s" exDir2 false "t" exDir2Result rfl
      ⟨"sensitive_file", "high", "访问密码相关文件", "x.py"⟩ (by decide)⟩

/-- C6: with deep scan on, the post-evaluation traversal flags every file
whose name starts with `'.'` as a `low`-severity `hidden_file` warning with
an empty `file` field; with deep scan off no `hidden_file` warning exists;
and a directory containing exactly one hidden file yields exactly one such
warning with deep scan on and zero with it off. -/
theorem C6_deep_scan :
    (∀ (dg : String → String) (sp : String) (root : Entry) (now : String)
        (r : ScanResult), scan dg sp (some root) true now = .ok r →
        ∀ n ∈ hiddenFiles root,
          (⟨"hidden_file", "low", "发现隐藏文件: " ++ n, ""⟩ : Warning) ∈ r.warnings)
    ∧ (∀ (dg : String → String) (sp : String) (root : Entry) (now : String)
        (r : ScanResult), scan dg sp (some root) false now = .ok r →
        ∀ w ∈ r.warnings, w.type ≠ "hidden_file")
    ∧ (scan (fun c => c) "p" (some exHidden) true "t").map
        (fun r => (r.warnings.filter (fun w => w.type = "hidden_file")).length) = .ok 1
    ∧ (scan (fun c => c) "p" (some exHidden) false "t").map
        (fun r => (r.warnings.filter (fun w => w.type = "hidden_file")).length) = .ok 0 := by
  refine ⟨?_, ?_, rfl, rfl⟩
  · intro dg sp root now r h n hn
    rw [scan_some_eq] at h
    by_cases he : getFiles root = []
    · rw [if_pos he] at h; cases h
    · rw [if_neg he] at h
      injection h with h2
      subst h2
      exact finalState_hidden_mem dg root n hn
  · intro dg sp root now r h w hw
    rw [scan_some_eq] at h
    by_cases he : getFiles root = []
    · rw [if_pos he] at h; cases h
    · rw [if_neg he] at h
      injection h with h2
      subst h2
      rcases finalState_false_adds dg root w hw with ⟨pf, _, _, htype⟩
      intro hEq
      rw [hEq] at htype
      exact absurd htype (by decide)

theorem C6_deep_scan_witness :
    ((⟨"hidden_file", "low", "发现隐藏文件: .secret", ""⟩ : Warning)
      ∈ exHiddenResult.warnings)
    ∧ (⟨"sensitive_file", "high", "访问密码相关文件", "x.py"⟩ : Warning).type ≠
        "hidden_file" :=
  ⟨C6_deep_scan.1 (fun c => c) "p" exHidden "t" exHiddenResult rfl ".secret" (by decide),
   C6_deep_scan.2.1 (fun c => c) "s" exDir2 "t" exDir2Result rfl
     ⟨"sensitive_file", "high", "访问密码相关文件", "x.py"⟩ (by decide)⟩

/-- C10: the file-hash map and the `file` field of every per-file warning
use only the file's base name: looking up a name in `file_hashes` gives the
digest of the LAST readable selected file with that base name (so two files
in different subdirectories sharing a base name collapse to a single entry),
`file_hashes` never has more entries than `files_scanned`, and on the
concrete two-directory example the count is strictly smaller. -/
theorem C10_basename_hashes :
    (∀ (dg : String → String) (sp : String) (root : Entry) (deep : Bool)
        (now : String) (r : ScanResult),
        scan dg sp (some root) deep now = .ok r →
        (∀ n : String,
          lookupA r.file_hashes n =
            ((okPairs (getFiles root)).filter (fun q => q.1 = n)).getLast?.map
              (fun q => strTake (dg q.2) 16))
        ∧ r.file_hashes.length ≤ r.files_scanned
        ∧ (∀ w ∈ r.warnings,
            w.file = "" ∨ ∃ pf ∈ getFiles root, w.file = basename pf.1))
    ∧ (scan (fun c => c) "s" (some exDir2) false "t").map
        (fun r => (r.files_scanned, r.file_hashes)) =
          .ok (2, [("x.py", "password_b")]) := by
  constructor
  · intro dg sp root deep now r h
    rw [scan_some_eq] at h
    by_cases he : getFiles root = []
    · rw [if_pos he] at h; cases h
    · rw [if_neg he] at h
      injection h with h2
      subst h2
      have hh : (scanResultOf dg sp root deep now).file_hashes =
          (getFiles root).foldl (hashStep dg) [] := finalState_hashes dg root deep
      refine ⟨?_, ?_, ?_⟩
      · intro n
        rw [hh, hashFold_lookup, foldl_lastWins]
        cases ((okPairs (getFiles root)).filter (fun q => q.1 = n)).getLast? <;> rfl
      · rw [hh]
        simpa using hashFold_length dg (getFiles root) []
      · intro w hw
        rcases finalState_adds dg root deep w hw with ⟨pf, hpf, hfw⟩ | ⟨_, hfile⟩
        · exact Or.inr ⟨pf, hpf, hfw.1⟩
        · exact Or.inl hfile
  · rfl

theorem C10_basename_hashes_witness :
    lookupA exDir2Result.file_hashes "x.py" =
      ((okPairs (getFiles exDir2)).filter (fun q => q.1 = "x.py")).getLast?.map
        (fun q => strTake ((fun c => c) q.2) 16) :=
  ((C10_basename_hashes.1 (fun c => c) "s" exDir2 false "t" exDir2Result rfl).1) "x.py"

end SkillShield
